import Mathlib

set_option maxHeartbeats 1000000

/-! Shallow embedding of the BooleanAtlas10Ops design (src/top.py), the pure
    Python reference histograms (src/sim.py) and the hex/pack helpers
    (src/utils.py).  Machine integers are modelled as Nat with explicit
    truncation where the hardware truncates. -/

/-! ## Histogram memory helpers -/

/-- Read one cell of the 16-entry histogram memory (default 0 off the end). -/
def memGet (mem : List Nat) (a : Nat) : Nat := mem.getD a 0

/-- Write one cell of the histogram memory. -/
def memSet (mem : List Nat) (a v : Nat) : List Nat := mem.set a v

/-- Increment one bin of a histogram list by one (reference semantics). -/
def bump (h : List Nat) (i : Nat) : List Nat := h.set i (memGet h i + 1)

/-- Increment one bin, truncating the counter to CW bits (hardware semantics:
    wr.data is rd.data + 1 stored in a CW-bit signal). -/
def bumpMod (CW : Nat) (h : List Nat) (i : Nat) : List Nat :=
  h.set i ((memGet h i + 1) % 2 ^ CW)

/-! ## Operator network (src/top.py, BooleanAtlas10Ops._apply_op) -/

/-- The 10-operator network of src/top.py lines 40-65: a Switch on the 4-bit
    op select over 4-bit operands a and b; out of range selects fall back to
    XOR via the Default arm. -/
def apply_op (op a b : Nat) : Nat :=
  let a := a % 16
  let b := b % 16
  match op with
  | 0 => a &&& b
  | 1 => a ||| b
  | 2 => (a ^^^ 15) ||| b
  | 3 => (b ^^^ 15) ||| a
  | 4 => a ^^^ b
  | 5 => (a ^^^ b) ^^^ 15
  | 6 => (a &&& b) ^^^ 15
  | 7 => (a ||| b) ^^^ 15
  | 8 => a &&& (b ^^^ 15)
  | 9 => b &&& (a ^^^ 15)
  | _ => a ^^^ b

/-- Combinational result network (src/top.py lines 130-140): t1 from (op1,
    sel0, sel1), t2 from (op2, t1, sel2); final_res is t1 for K = 2 and t2
    otherwise. -/
def finalRes (K op1 op2 a b c : Nat) : Nat :=
  let t1 := apply_op op1 a b
  let t2 := apply_op op2 t1 c
  if K = 2 then t1 else t2

/-! ## Gosper successor combinational logic (src/top.py lines 88-117) -/

/-- neg_mask = (~mask + 1) truncated to N bits. -/
def negMask (N mask : Nat) : Nat := (2 ^ N - mask % 2 ^ N) % 2 ^ N

/-- c = mask & neg_mask (lowest set bit of the mask). -/
def cOf (N mask : Nat) : Nat := (mask % 2 ^ N) &&& negMask N mask

/-- r = mask + c (held in an (N+1)-bit signal, no truncation needed). -/
def rOf (N mask : Nat) : Nat := mask % 2 ^ N + cOf N mask

/-- x_xor_r = r ^ mask. -/
def xOf (N mask : Nat) : Nat := rOf N mask ^^^ mask % 2 ^ N

/-- tz: the Switch over c mapping the single-bit value 1 <<< i to i, with
    Default 0 (src/top.py lines 106-111). -/
def tzOf (N mask : Nat) : Nat :=
  match (List.range N).find? (fun i => cOf N mask = 2 ^ i) with
  | some i => i
  | none => 0

/-- next_mask = ((x_xor_r >> 2) >> tz) | r, truncated to N bits. -/
def gosperNext (N mask : Nat) : Nat :=
  (((xOf N mask >>> 2) >>> tzOf N mask) ||| rOf N mask) % 2 ^ N

/-- init_mask = (1 <<< K) - 1, as stored into the N-bit mask register. -/
def initMask (N K : Nat) : Nat := (2 ^ K - 1) % 2 ^ N

/-- last_mask = ((1 <<< K) - 1) <<< (N - K). -/
def lastMask (N K : Nat) : Nat := (2 ^ K - 1) * 2 ^ (N - K)

/-! ## The controller state (registers of src/top.py) -/

/-- FSM states of the atlas10 FSM (src/top.py lines 156-276). -/
inductive Fsm where
  | idle | clearInit | clearStep | initEnum | scanSelect
  | doOneResult | histRead | histWrite | advance | nextSubset | finished
deriving DecidableEq, Repr

/-- All synchronous registers of the design, including the histogram memory,
    the registered write port inputs and the synchronous read port output. -/
structure St where
  fsm : Fsm
  mask : Nat
  scan_i : Nat
  sel_count : Nat
  sel0 : Nat
  sel1 : Nat
  sel2 : Nat
  op1 : Nat
  op2 : Nat
  bin_val : Nat
  busy : Bool
  done : Bool
  clr_idx : Nat
  wr_en : Bool
  wr_addr : Nat
  wr_data : Nat
  use_internal_read : Bool
  int_rd_addr : Nat
  mem : List Nat
  rd_data : Nat
deriving DecidableEq, Repr

/-- External inputs sampled during one clock cycle (start and rd_addr;
    data_in is passed separately). -/
structure Inp where
  start : Bool
  rd_addr : Nat
deriving DecidableEq, Repr

/-- Nibble i of the packed data_in vector (data_in[4i : 4i+4]). -/
def nibble (data i : Nat) : Nat := (data >>> (4 * i)) % 16

/-- The histogram memory after the write port acted on one clock edge. -/
def memW (s : St) : List Nat :=
  if s.wr_en then memSet s.mem s.wr_addr s.wr_data else s.mem

/-- The address seen by the read port: int_rd_addr when the internal-read
    flag is set, else the external 4-bit rd_addr input. -/
def rdAddrEff (inp : Inp) (s : St) : Nat :=
  if s.use_internal_read then s.int_rd_addr else inp.rd_addr % 16

/-- One clock edge of the elaborated design.  The memory write commits when
    the registered wr.en is high; the synchronous (transparent) read port
    register loads mem[rd.addr] where rd.addr is muxed between int_rd_addr
    and the external rd_addr (src/top.py lines 77-86).  Then the FSM applies
    its m.d.sync assignments, whose right hand sides read the current
    register values. -/
def step (N K CW data : Nat) (inp : Inp) (s : St) : St :=
  let t := { s with mem := memW s, rd_data := memGet (memW s) (rdAddrEff inp s) }
  match s.fsm with
  | .idle =>
      { t with busy := false, done := false, wr_en := false,
               use_internal_read := false,
               fsm := if inp.start then .clearInit else .idle }
  | .clearInit =>
      { t with busy := true, clr_idx := 0, fsm := .clearStep }
  | .clearStep =>
      if s.clr_idx = 15 then
        { t with wr_en := false, wr_addr := s.clr_idx, wr_data := 0,
                 fsm := .initEnum }
      else
        { t with wr_en := true, wr_addr := s.clr_idx, wr_data := 0,
                 clr_idx := (s.clr_idx + 1) % 16, fsm := .clearStep }
  | .initEnum =>
      { t with mask := initMask N K, scan_i := 0, sel_count := 0,
               op1 := 0, op2 := 0, fsm := .scanSelect }
  | .scanSelect =>
      if s.scan_i < N then
        let t2 :=
          if s.mask.testBit s.scan_i then
            let t3 :=
              if s.sel_count = 0 then { t with sel0 := nibble data s.scan_i }
              else if s.sel_count = 1 then { t with sel1 := nibble data s.scan_i }
              else { t with sel2 := nibble data s.scan_i }
            { t3 with sel_count := (s.sel_count + 1) % 4 }
          else t
        { t2 with scan_i := s.scan_i + 1 }
      else
        { t with op1 := 0, op2 := 0, fsm := .doOneResult }
  | .doOneResult =>
      let fr := finalRes K s.op1 s.op2 s.sel0 s.sel1 s.sel2
      { t with bin_val := fr, use_internal_read := true, int_rd_addr := fr,
               fsm := .histRead }
  | .histRead =>
      { t with fsm := .histWrite }
  | .histWrite =>
      { t with wr_en := true, wr_addr := s.bin_val,
               wr_data := (s.rd_data + 1) % 2 ^ CW, fsm := .advance }
  | .advance =>
      let t4 := { t with wr_en := false, use_internal_read := false }
      if K = 2 then
        if s.op1 = 9 then { t4 with fsm := .nextSubset }
        else { t4 with op1 := (s.op1 + 1) % 16, fsm := .doOneResult }
      else
        if s.op2 = 9 then
          if s.op1 = 9 then { t4 with fsm := .nextSubset }
          else { t4 with op1 := (s.op1 + 1) % 16, op2 := 0, fsm := .doOneResult }
        else { t4 with op2 := (s.op2 + 1) % 16, fsm := .doOneResult }
  | .nextSubset =>
      if s.mask = lastMask N K then
        { t with busy := false, done := true, fsm := .finished }
      else
        { t with mask := gosperNext N s.mask, scan_i := 0, sel_count := 0,
                 fsm := .scanSelect }
  | .finished =>
      { t with fsm := if inp.start then .finished else .idle }

/-- Power-on reset state: all registers 0, memory initialised to 16 zeros. -/
def reset : St :=
  { fsm := .idle, mask := 0, scan_i := 0, sel_count := 0, sel0 := 0,
    sel1 := 0, sel2 := 0, op1 := 0, op2 := 0, bin_val := 0, busy := false,
    done := false, clr_idx := 0, wr_en := false, wr_addr := 0, wr_data := 0,
    use_internal_read := false, int_rd_addr := 0,
    mem := List.replicate 16 0, rd_data := 0 }

/-- Iterate the design for n cycles with constant inputs. -/
def iterC (N K CW data : Nat) (inp : Inp) : Nat → St → St
  | 0, s => s
  | n + 1, s => iterC N K CW data inp n (step N K CW data inp s)

/-- States reachable from reset under arbitrary per-cycle inputs. -/
inductive Reach (N K CW : Nat) : St → Prop where
  | start : Reach N K CW reset
  | next (data : Nat) (inp : Inp) {s : St} :
      Reach N K CW s → Reach N K CW (step N K CW data inp s)

/-! ## Mask enumeration model -/

/-- Population count helper, structurally recursive on a fuel argument. -/
def popCountAux : Nat → Nat → Nat
  | 0, _ => 0
  | fuel + 1, n => if n = 0 then 0 else popCountAux fuel (n / 2) + n % 2

/-- Population count of a natural number. -/
def popCount (n : Nat) : Nat := popCountAux n n

/-- The masks visited by one run of the enumerator, driven by gosperNext,
    starting from m and computed with the given fuel. -/
def enumFrom (N K : Nat) : Nat → Nat → List Nat
  | 0, _ => []
  | fuel + 1, m =>
      if m = lastMask N K then [m] else m :: enumFrom N K fuel (gosperNext N m)

/-- The mask trajectory of a full run. -/
def enumMasks (N K : Nat) : List Nat :=
  enumFrom N K (2 ^ N) (initMask N K)

/-- All N-bit masks with popcount K, in increasing numeric order. -/
def maskList (N K : Nat) : List Nat :=
  (List.range (2 ^ N)).filter (fun m => popCount m = K)

/-! ## Reference model (src/sim.py) -/

/-- Python reference operator op_AND. -/
def op_AND (a b : Nat) : Nat := a &&& b
/-- Python reference operator op_OR. -/
def op_OR (a b : Nat) : Nat := a ||| b
/-- Python reference operator op_IMPLY, ((~a) & 0xF) | b. -/
def op_IMPLY (a b : Nat) : Nat := ((a % 16) ^^^ 15) ||| b
/-- Python reference operator op_CONV, ((~b) & 0xF) | a. -/
def op_CONV (a b : Nat) : Nat := ((b % 16) ^^^ 15) ||| a
/-- Python reference operator op_XOR. -/
def op_XOR (a b : Nat) : Nat := a ^^^ b
/-- Python reference operator op_XNOR, (~(a ^ b)) & 0xF. -/
def op_XNOR (a b : Nat) : Nat := ((a ^^^ b) % 16) ^^^ 15
/-- Python reference operator op_NAND, (~(a & b)) & 0xF. -/
def op_NAND (a b : Nat) : Nat := ((a &&& b) % 16) ^^^ 15
/-- Python reference operator op_NOR, (~(a | b)) & 0xF. -/
def op_NOR (a b : Nat) : Nat := ((a ||| b) % 16) ^^^ 15
/-- Python reference operator op_NIMPLY, (a & ((~b) & 0xF)) & 0xF. -/
def op_NIMPLY (a b : Nat) : Nat := (a &&& ((b % 16) ^^^ 15)) % 16
/-- Python reference operator op_INV, (b & ((~a) & 0xF)) & 0xF. -/
def op_INV (a b : Nat) : Nat := (b &&& ((a % 16) ^^^ 15)) % 16

/-- The OPS table of src/sim.py line 21, in order. -/
def OPS : List (Nat → Nat → Nat) :=
  [op_AND, op_OR, op_IMPLY, op_CONV, op_XOR, op_XNOR, op_NAND, op_NOR,
   op_NIMPLY, op_INV]

/-- itertools.combinations l k: all length-k sorted picks from l, in the
    lexicographic order itertools produces. -/
def combos : Nat → List Nat → List (List Nat)
  | 0, _ => [[]]
  | _ + 1, [] => []
  | k + 1, x :: xs => (combos k xs).map (fun c => x :: c) ++ combos (k + 1) xs

/-- python_pol2_hist of src/sim.py lines 24-32. -/
def python_pol2_hist (nibbles : List Nat) : List Nat :=
  (combos 2 (List.range nibbles.length)).foldl
    (fun h c =>
      let a := memGet nibbles (c.getD 0 0)
      let b := memGet nibbles (c.getD 1 0)
      OPS.foldl (fun h op => bump h (op a b)) h)
    (List.replicate 16 0)

/-- python_pol3_hist of src/sim.py lines 35-46. -/
def python_pol3_hist (nibbles : List Nat) : List Nat :=
  (combos 3 (List.range nibbles.length)).foldl
    (fun h c =>
      let a := memGet nibbles (c.getD 0 0)
      let b := memGet nibbles (c.getD 1 0)
      let c3 := memGet nibbles (c.getD 2 0)
      OPS.foldl (fun h op1 =>
        let first := op1 a b
        OPS.foldl (fun h op2 => bump h (op2 first c3)) h) h)
    (List.replicate 16 0)

/-- The nibble array encoded by a packed data_in value, positions 0..N-1. -/
def nibblesOf (N data : Nat) : List Nat :=
  (List.range N).map (nibble data)

/-- The golden reference histogram for parameters N, K on packed input data. -/
def refHist (N K data : Nat) : List Nat :=
  if K = 2 then python_pol2_hist (nibblesOf N data)
  else python_pol3_hist (nibblesOf N data)

/-! ## Hex utilities (src/utils.py) -/

/-- Whitespace characters stripped by Python str.strip(). -/
def pyIsSpace (c : Char) : Bool :=
  c = ' ' || c = '\t' || c = '\n' || c = '\r' || c = '\x0b' || c = '\x0c'

/-- Python str.strip(): drop leading and trailing whitespace. -/
def stripList (l : List Char) : List Char :=
  ((l.dropWhile pyIsSpace).reverse.dropWhile pyIsSpace).reverse

/-- Python str.replace applied to the two-character pattern 0x: remove
    non-overlapping occurrences left to right. -/
def replace0x : List Char → List Char
  | [] => []
  | [c] => [c]
  | c1 :: c2 :: rest =>
    if c1 = '0' ∧ c2 = 'x' then replace0x rest
    else c1 :: replace0x (c2 :: rest)

/-- Value of one hex digit as parsed by Python int(ch, 16). -/
def hexVal (c : Char) : Option Nat :=
  let n := c.toNat
  if 48 ≤ n ∧ n ≤ 57 then some (n - 48)
  else if 65 ≤ n ∧ n ≤ 70 then some (n - 55)
  else if 97 ≤ n ∧ n ≤ 102 then some (n - 87)
  else none

/-- hex_to_nibbles_le of src/utils.py: strip, remove 0x and underscores,
    uppercase, then decode characters from the right end. -/
def hex_to_nibbles_le (l : List Char) : Option (List Nat) :=
  let s := ((replace0x (stripList l)).filter (fun c => ¬ c = '_')).map Char.toUpper
  s.reverse.mapM hexVal

/-- pack_nibbles_le of src/utils.py: nibble i to bits 4i..4i+3. -/
def pack_nibbles_le (nibbles : List Nat) : Nat :=
  (List.range nibbles.length).foldl
    (fun x i => x ||| ((memGet nibbles i % 16) <<< (4 * i))) 0

/-! ## Derived enumeration helpers -/

/-- The nibble values selected by a mask, in ascending position order. -/
def selVals (N data m : Nat) : List Nat :=
  (((List.range N).filter (fun i => m.testBit i)).map (nibble data))

/-- The (op1, op2) sweep order of the ADVANCE state: op1 alone for K = 2
    (op2 stays 0), row-major (op1 outer, op2 inner) for K = 3. -/
def opSeq (K : Nat) : List (Nat × Nat) :=
  if K = 2 then (List.range 10).map (fun o => (o, 0))
  else (List.range 10).flatMap (fun o1 => (List.range 10).map (fun o2 => (o1, o2)))

/-- The sequence of bins hit while sweeping one subset with values a, b, c. -/
def subsetBins (K a b c : Nat) : List Nat :=
  (opSeq K).map (fun p => finalRes K p.1 p.2 a b c)

/-- The bin mask of a list of positions (fold of 1 <<< i). -/
def maskOf (c : List Nat) : Nat :=
  c.foldr (fun i acc => 2 ^ i ||| acc) 0

/-- The operator table exactly as the specification writes it (section 4.1),
    with the bitwise complement written arithmetically as 15 - x. -/
def specOpTable (op a b : Nat) : Nat :=
  match op with
  | 0 => a &&& b
  | 1 => a ||| b
  | 2 => (15 - a) ||| b
  | 3 => (15 - b) ||| a
  | 4 => a ^^^ b
  | 5 => 15 - (a ^^^ b)
  | 6 => 15 - (a &&& b)
  | 7 => 15 - (a ||| b)
  | 8 => a &&& (15 - b)
  | 9 => b &&& (15 - a)
  | _ => a ^^^ b

/-- The 22 hexadecimal digit characters. -/
def hexChars : List Char :=
  ['0', 'A', 'a', '1', 'B', 'b', '2', 'C', 'c', '3', 'D', 'd',
   '4', 'E', 'e', '5', 'F', 'f', '6', '7', '8', '9']

/-- Decoding one character as a (case-insensitive) hex digit. -/
def pyHexDigit (c : Char) : Nat := (hexVal c.toUpper).getD 0

/-- Inductive invariant of the controller: the internal-read flag is set
    exactly in HIST_READ, HIST_WRITE and ADVANCE; the write port is enabled
    outside the clear loop only in ADVANCE, where it carries the freshly read
    value of the target bin plus one; in HIST_WRITE the read register holds
    the current value of the target bin. -/
def CtrlInv (CW : Nat) (s : St) : Prop :=
  (s.use_internal_read = true ↔
      (s.fsm = .histRead ∨ s.fsm = .histWrite ∨ s.fsm = .advance)) ∧
  (match s.fsm with
   | .histRead => s.wr_en = false ∧ s.int_rd_addr = s.bin_val
   | .histWrite => s.wr_en = false ∧ s.int_rd_addr = s.bin_val ∧
       s.rd_data = memGet s.mem s.bin_val
   | .advance => s.wr_en = true ∧ s.wr_addr = s.bin_val ∧
       s.wr_data = (memGet s.mem s.bin_val + 1) % 2 ^ CW
   | .initEnum => s.wr_en = false
   | .scanSelect => s.wr_en = false
   | .doOneResult => s.wr_en = false
   | .nextSubset => s.wr_en = false
   | _ => True)

/-! ## Abstract models of the scan, the operator sweep and one run -/

/-- One SCAN_SELECT step on the (sel_count, sel0, sel1, sel2) registers when
    the mask bit at position i is set. -/
def scanUpd (data : Nat) (st : Nat × Nat × Nat × Nat) (i : Nat) :
    Nat × Nat × Nat × Nat :=
  ((st.1 + 1) % 4,
   if st.1 = 0 then nibble data i else st.2.1,
   if st.1 = 0 then st.2.2.1 else if st.1 = 1 then nibble data i else st.2.2.1,
   if st.1 = 0 ∨ st.1 = 1 then st.2.2.2 else nibble data i)

/-- The selection registers after scanning the given positions in order. -/
def scanRun (data : Nat) (st : Nat × Nat × Nat × Nat) (ps : List Nat) :
    Nat × Nat × Nat × Nat :=
  ps.foldl (scanUpd data) st

/-- The (op1, op2, next state) outcome of one ADVANCE state. -/
def advRes (K o1 o2 : Nat) : Nat × Nat × Fsm :=
  if K = 2 then
    if o1 = 9 then (o1, o2, .nextSubset) else ((o1 + 1) % 16, o2, .doOneResult)
  else
    if o2 = 9 then
      if o1 = 9 then (o1, o2, .nextSubset)
      else ((o1 + 1) % 16, 0, .doOneResult)
    else (o1, (o2 + 1) % 16, .doOneResult)

/-- The operator pairs visited from (o1, o2) until the sweep ends. -/
def opsFrom (K : Nat) : Nat → Nat → Nat → List (Nat × Nat)
  | 0, _, _ => []
  | fuel + 1, o1, o2 =>
      (o1, o2) ::
        (match advRes K o1 o2 with
         | (o1n, o2n, Fsm.doOneResult) => opsFrom K fuel o1n o2n
         | _ => [])

/-- Number of events remaining in a sweep standing at (o1, o2). -/
def remEv (K o1 o2 : Nat) : Nat :=
  if K = 2 then 10 - o1 else (9 - o1) * 10 + (10 - o2)

/-- First, second and third selected nibble of a mask. -/
def selA (N data m : Nat) : Nat := (selVals N data m).getD 0 0

/-- Second selected nibble. -/
def selB (N data m : Nat) : Nat := (selVals N data m).getD 1 0

/-- Third selected nibble. -/
def selC (N data m : Nat) : Nat := (selVals N data m).getD 2 0

/-- Histogram contribution of one subset (all its operator events). -/
def subsetMem (N K CW data : Nat) (h : List Nat) (m : Nat) : List Nat :=
  (subsetBins K (selA N data m) (selB N data m) (selC N data m)).foldl
    (bumpMod CW) h

/-- Histogram after sweeping a list of masks. -/
def runMem (N K CW data : Nat) (h : List Nat) (ms : List Nat) : List Nat :=
  ms.foldl (subsetMem N K CW data) h

/-- The popcount-K masks from m upward, in increasing order. -/
def maskTail (N K m : Nat) : List Nat :=
  (List.range (2 ^ N)).filter
    (fun x => decide (popCount x = K) && decide (m ≤ x))

/-! ## Claim C6: the operator table and the K = 3 chain -/

/-- Claim C6: for a, b in [0,15] and op in [0,9], apply_op returns a 4-bit
    value equal to the specification's fixed table, and for K = 3 the result
    network computes the left-associative chain
    apply(op2, apply(op1, sel0, sel1), sel2). -/
theorem C6_operator_table :
    (∀ op < 10, ∀ a < 16, ∀ b < 16,
        apply_op op a b < 16 ∧ apply_op op a b = specOpTable op a b) ∧
    (∀ op1 op2 a b c, finalRes 3 op1 op2 a b c = apply_op op2 (apply_op op1 a b) c) := by
  constructor
  · decide
  · intro op1 op2 a b c; rfl

/-- Witness for C6 at a concrete input. -/
theorem C6_operator_table_witness :
    apply_op 2 3 5 < 16 ∧ apply_op 2 3 5 = specOpTable 2 3 5 ∧
      finalRes 3 4 6 1 2 3 = apply_op 6 (apply_op 4 1 2) 3 :=
  ⟨(C6_operator_table.1 2 (by decide) 3 (by decide) 5 (by decide)).1,
   (C6_operator_table.1 2 (by decide) 3 (by decide) 5 (by decide)).2,
   C6_operator_table.2 4 6 1 2 3⟩

/-! ## Claim C9: the hex decoder -/

theorem hexChars_facts : ∀ c ∈ hexChars,
    pyIsSpace c = false ∧ ¬c = 'x' ∧ ¬c = '_' ∧
      hexVal c.toUpper = some (pyHexDigit c) := by
  intro c hc
  fin_cases hc <;> exact ⟨by decide, by decide, by decide, by decide⟩

theorem dropWhile_eq_self_of_none (p : Char → Bool) (l : List Char)
    (h : ∀ c ∈ l, p c = false) : l.dropWhile p = l := by
  cases l with
  | nil => rfl
  | cons a t => simp [List.dropWhile_cons, h a (by simp)]

theorem stripList_eq_self (l : List Char) (h : ∀ c ∈ l, pyIsSpace c = false) :
    stripList l = l := by
  unfold stripList
  rw [dropWhile_eq_self_of_none _ _ h,
      dropWhile_eq_self_of_none _ _ (fun c hc => h c (List.mem_reverse.mp hc)),
      List.reverse_reverse]

theorem replace0x_eq_self (l : List Char) (h : ∀ c ∈ l, ¬c = 'x') :
    replace0x l = l := by
  induction l with
  | nil => rfl
  | cons c1 t ih =>
    cases t with
    | nil => rfl
    | cons c2 rest =>
      have hx : ¬(c1 = '0' ∧ c2 = 'x') := by
        rintro ⟨-, h2⟩; exact h c2 (by simp) h2
      rw [replace0x, if_neg hx, ih (fun c hc => h c (by simp [hc]))]

theorem mapM_hexVal_upper : ∀ l : List Char,
    (∀ c ∈ l, hexVal c.toUpper = some (pyHexDigit c)) →
    (l.map Char.toUpper).mapM hexVal = some (l.map pyHexDigit) := by
  intro l h
  induction l with
  | nil => rfl
  | cons a t ih =>
    simp only [List.map_cons, List.mapM_cons, h a (by simp),
      ih (fun c hc => h c (by simp [hc])), Option.pure_def, Option.bind_some]
    rfl

/-- Claim C9: on hexadecimal strings the decoder returns the reverse of the
    string with each character decoded as one hex digit, and decoding A1F3
    yields [3, 15, 1, 10]. -/
theorem C9_hex_decoder :
    (∀ l : List Char, (∀ c ∈ l, c ∈ hexChars) →
        hex_to_nibbles_le l = some (l.reverse.map pyHexDigit)) ∧
    hex_to_nibbles_le ['A', '1', 'F', '3'] = some [3, 15, 1, 10] := by
  constructor
  · intro l h
    have hfacts := fun c hc => hexChars_facts c (h c hc)
    unfold hex_to_nibbles_le
    rw [stripList_eq_self l (fun c hc => (hfacts c hc).1),
        replace0x_eq_self l (fun c hc => (hfacts c hc).2.1)]
    have hfilter : l.filter (fun c => ¬ c = '_') = l := by
      rw [List.filter_eq_self]
      intro c hc
      simpa using (hfacts c hc).2.2.1
    rw [hfilter]
    show (List.map Char.toUpper l).reverse.mapM hexVal = _
    rw [← List.map_reverse]
    exact mapM_hexVal_upper l.reverse
      (fun c hc => (hfacts c (List.mem_reverse.mp hc)).2.2.2)
  · decide

/-- Witness for C9 applying the universal part at the concrete string. -/
theorem C9_hex_decoder_witness :
    hex_to_nibbles_le ['a', '1', 'f', '3'] =
      some (['a', '1', 'f', '3'].reverse.map pyHexDigit) :=
  C9_hex_decoder.1 ['a', '1', 'f', '3'] (by decide)

/-! ## Claims C2 and C3: the clear loop misses address 15

    In CLEAR_STEP the guard clr_idx == 15 deasserts wr.en in the same cycle
    in which address 15 is scheduled, so the write of address 15 never
    commits: a run clears only counters 0..14.  The first run from reset is
    saved by the memory init value, but a second run accumulates on top of
    bin 15 of the first. -/

set_option maxRecDepth 1000000

/-- Claim C2 demonstration: with N = 2, K = 2, data_in = 0xFF, run one full
    run (63 cycles, reaching DONE with bin 15 = 5), deassert start for one
    cycle, start a second run and let its clear phase complete (18 cycles,
    reaching INIT_ENUM).  Counter 15 still holds 5: the clear phase does not
    set all 16 counters to 0. -/
theorem C2_clear_misses_bin15 :
    (iterC 2 2 32 255 ⟨true, 0⟩ 18
        (step 2 2 32 255 ⟨false, 0⟩
          (iterC 2 2 32 255 ⟨true, 0⟩ 63 reset))).fsm = Fsm.initEnum ∧
    (iterC 2 2 32 255 ⟨true, 0⟩ 63 reset).fsm = Fsm.finished ∧
    memGet (iterC 2 2 32 255 ⟨true, 0⟩ 18
        (step 2 2 32 255 ⟨false, 0⟩
          (iterC 2 2 32 255 ⟨true, 0⟩ 63 reset))).mem 15 = 5 := by
  decide

/-- Claim C3 demonstration: same scenario, both runs driven to DONE; the two
    final histograms differ (bin 15 is 5 after the first run and 10 after
    the second), so a second identical run does not reproduce the first. -/
theorem C3_second_run_differs :
    (iterC 2 2 32 255 ⟨true, 0⟩ 63 reset).fsm = Fsm.finished ∧
    (iterC 2 2 32 255 ⟨true, 0⟩ 63
        (step 2 2 32 255 ⟨false, 0⟩
          (iterC 2 2 32 255 ⟨true, 0⟩ 63 reset))).fsm = Fsm.finished ∧
    (iterC 2 2 32 255 ⟨true, 0⟩ 63 reset).mem =
      [5, 0, 0, 0, 0, 0, 0, 0, 0, 0, 0, 0, 0, 0, 0, 5] ∧
    (iterC 2 2 32 255 ⟨true, 0⟩ 63
        (step 2 2 32 255 ⟨false, 0⟩
          (iterC 2 2 32 255 ⟨true, 0⟩ 63 reset))).mem =
      [5, 0, 0, 0, 0, 0, 0, 0, 0, 0, 0, 0, 0, 0, 0, 10] := by
  decide

/-! ## One-cycle characterisation lemmas for each FSM state -/

theorem step_eq_idle {N K CW data : Nat} {inp : Inp} {s : St}
    (hf : s.fsm = .idle) :
    step N K CW data inp s =
      { s with mem := memW s, rd_data := memGet (memW s) (rdAddrEff inp s),
               busy := false, done := false, wr_en := false,
               use_internal_read := false,
               fsm := if inp.start then Fsm.clearInit else Fsm.idle } := by
  simp only [step, hf]

theorem step_eq_clearInit {N K CW data : Nat} {inp : Inp} {s : St}
    (hf : s.fsm = .clearInit) :
    step N K CW data inp s =
      { s with mem := memW s, rd_data := memGet (memW s) (rdAddrEff inp s),
               busy := true, clr_idx := 0, fsm := Fsm.clearStep } := by
  simp only [step, hf]

theorem step_eq_clearStep_mid {N K CW data : Nat} {inp : Inp} {s : St}
    (hf : s.fsm = .clearStep) (hc : ¬ s.clr_idx = 15) :
    step N K CW data inp s =
      { s with mem := memW s, rd_data := memGet (memW s) (rdAddrEff inp s),
               wr_en := true, wr_addr := s.clr_idx, wr_data := 0,
               clr_idx := (s.clr_idx + 1) % 16, fsm := Fsm.clearStep } := by
  simp only [step, hf, if_neg hc]

theorem step_eq_clearStep_end {N K CW data : Nat} {inp : Inp} {s : St}
    (hf : s.fsm = .clearStep) (hc : s.clr_idx = 15) :
    step N K CW data inp s =
      { s with mem := memW s, rd_data := memGet (memW s) (rdAddrEff inp s),
               wr_en := false, wr_addr := s.clr_idx, wr_data := 0,
               fsm := Fsm.initEnum } := by
  simp only [step, hf, if_pos hc]

theorem step_eq_initEnum {N K CW data : Nat} {inp : Inp} {s : St}
    (hf : s.fsm = .initEnum) :
    step N K CW data inp s =
      { s with mem := memW s, rd_data := memGet (memW s) (rdAddrEff inp s),
               mask := initMask N K, scan_i := 0, sel_count := 0,
               op1 := 0, op2 := 0, fsm := Fsm.scanSelect } := by
  simp only [step, hf]

theorem step_eq_scan_exit {N K CW data : Nat} {inp : Inp} {s : St}
    (hf : s.fsm = .scanSelect) (hi : ¬ s.scan_i < N) :
    step N K CW data inp s =
      { s with mem := memW s, rd_data := memGet (memW s) (rdAddrEff inp s),
               op1 := 0, op2 := 0, fsm := Fsm.doOneResult } := by
  simp only [step, hf, if_neg hi]

theorem step_eq_scan_skip {N K CW data : Nat} {inp : Inp} {s : St}
    (hf : s.fsm = .scanSelect) (hi : s.scan_i < N)
    (hb : s.mask.testBit s.scan_i = false) :
    step N K CW data inp s =
      { s with mem := memW s, rd_data := memGet (memW s) (rdAddrEff inp s),
               scan_i := s.scan_i + 1 } := by
  simp only [step, hf, if_pos hi, hb, Bool.false_eq_true, if_false]

theorem step_eq_scan_take0 {N K CW data : Nat} {inp : Inp} {s : St}
    (hf : s.fsm = .scanSelect) (hi : s.scan_i < N)
    (hb : s.mask.testBit s.scan_i = true) (hc : s.sel_count = 0) :
    step N K CW data inp s =
      { s with mem := memW s, rd_data := memGet (memW s) (rdAddrEff inp s),
               sel0 := nibble data s.scan_i, sel_count := 1,
               scan_i := s.scan_i + 1 } := by
  simp only [step, hf, if_pos hi, hb, if_true, if_pos hc, hc]

theorem step_eq_scan_take1 {N K CW data : Nat} {inp : Inp} {s : St}
    (hf : s.fsm = .scanSelect) (hi : s.scan_i < N)
    (hb : s.mask.testBit s.scan_i = true) (hc : s.sel_count = 1) :
    step N K CW data inp s =
      { s with mem := memW s, rd_data := memGet (memW s) (rdAddrEff inp s),
               sel1 := nibble data s.scan_i, sel_count := 2,
               scan_i := s.scan_i + 1 } := by
  simp only [step, hf, if_pos hi, hb, if_true, hc]
  norm_num

theorem step_eq_scan_take2 {N K CW data : Nat} {inp : Inp} {s : St}
    (hf : s.fsm = .scanSelect) (hi : s.scan_i < N)
    (hb : s.mask.testBit s.scan_i = true) (hc : s.sel_count = 2) :
    step N K CW data inp s =
      { s with mem := memW s, rd_data := memGet (memW s) (rdAddrEff inp s),
               sel2 := nibble data s.scan_i, sel_count := 3,
               scan_i := s.scan_i + 1 } := by
  simp only [step, hf, if_pos hi, hb, if_true, hc]
  norm_num

theorem step_eq_doOne {N K CW data : Nat} {inp : Inp} {s : St}
    (hf : s.fsm = .doOneResult) :
    step N K CW data inp s =
      { s with mem := memW s, rd_data := memGet (memW s) (rdAddrEff inp s),
               bin_val := finalRes K s.op1 s.op2 s.sel0 s.sel1 s.sel2,
               use_internal_read := true,
               int_rd_addr := finalRes K s.op1 s.op2 s.sel0 s.sel1 s.sel2,
               fsm := Fsm.histRead } := by
  simp only [step, hf]

theorem step_eq_histRead {N K CW data : Nat} {inp : Inp} {s : St}
    (hf : s.fsm = .histRead) :
    step N K CW data inp s =
      { s with mem := memW s, rd_data := memGet (memW s) (rdAddrEff inp s),
               fsm := Fsm.histWrite } := by
  simp only [step, hf]

theorem step_eq_histWrite {N K CW data : Nat} {inp : Inp} {s : St}
    (hf : s.fsm = .histWrite) :
    step N K CW data inp s =
      { s with mem := memW s, rd_data := memGet (memW s) (rdAddrEff inp s),
               wr_en := true, wr_addr := s.bin_val,
               wr_data := (s.rd_data + 1) % 2 ^ CW, fsm := Fsm.advance } := by
  simp only [step, hf]

theorem step_eq_advance2_cont {N CW data : Nat} {inp : Inp} {s : St}
    (hf : s.fsm = .advance) (ho : ¬ s.op1 = 9) :
    step N 2 CW data inp s =
      { s with mem := memW s, rd_data := memGet (memW s) (rdAddrEff inp s),
               wr_en := false, use_internal_read := false,
               op1 := (s.op1 + 1) % 16, fsm := Fsm.doOneResult } := by
  simp only [step, hf, if_pos rfl, if_true, if_neg ho]

theorem step_eq_advance2_last {N CW data : Nat} {inp : Inp} {s : St}
    (hf : s.fsm = .advance) (ho : s.op1 = 9) :
    step N 2 CW data inp s =
      { s with mem := memW s, rd_data := memGet (memW s) (rdAddrEff inp s),
               wr_en := false, use_internal_read := false,
               fsm := Fsm.nextSubset } := by
  simp only [step, hf, if_pos rfl, if_true, if_pos ho]

theorem step_eq_advance3_inner {N K CW data : Nat} {inp : Inp} {s : St}
    (hK : ¬ K = 2) (hf : s.fsm = .advance) (ho : ¬ s.op2 = 9) :
    step N K CW data inp s =
      { s with mem := memW s, rd_data := memGet (memW s) (rdAddrEff inp s),
               wr_en := false, use_internal_read := false,
               op2 := (s.op2 + 1) % 16, fsm := Fsm.doOneResult } := by
  simp only [step, hf, if_neg hK, if_neg ho]

theorem step_eq_advance3_outer {N K CW data : Nat} {inp : Inp} {s : St}
    (hK : ¬ K = 2) (hf : s.fsm = .advance) (ho2 : s.op2 = 9) (ho1 : ¬ s.op1 = 9) :
    step N K CW data inp s =
      { s with mem := memW s, rd_data := memGet (memW s) (rdAddrEff inp s),
               wr_en := false, use_internal_read := false,
               op1 := (s.op1 + 1) % 16, op2 := 0, fsm := Fsm.doOneResult } := by
  simp only [step, hf, if_neg hK, if_pos ho2, if_neg ho1]

theorem step_eq_advance3_last {N K CW data : Nat} {inp : Inp} {s : St}
    (hK : ¬ K = 2) (hf : s.fsm = .advance) (ho2 : s.op2 = 9) (ho1 : s.op1 = 9) :
    step N K CW data inp s =
      { s with mem := memW s, rd_data := memGet (memW s) (rdAddrEff inp s),
               wr_en := false, use_internal_read := false,
               fsm := Fsm.nextSubset } := by
  simp only [step, hf, if_neg hK, if_pos ho2, if_pos ho1]

theorem step_eq_next_last {N K CW data : Nat} {inp : Inp} {s : St}
    (hf : s.fsm = .nextSubset) (hm : s.mask = lastMask N K) :
    step N K CW data inp s =
      { s with mem := memW s, rd_data := memGet (memW s) (rdAddrEff inp s),
               busy := false, done := true, fsm := Fsm.finished } := by
  simp only [step, hf, if_pos hm]

theorem step_eq_next_cont {N K CW data : Nat} {inp : Inp} {s : St}
    (hf : s.fsm = .nextSubset) (hm : ¬ s.mask = lastMask N K) :
    step N K CW data inp s =
      { s with mem := memW s, rd_data := memGet (memW s) (rdAddrEff inp s),
               mask := gosperNext N s.mask, scan_i := 0, sel_count := 0,
               fsm := Fsm.scanSelect } := by
  simp only [step, hf, if_neg hm]

theorem step_eq_finished {N K CW data : Nat} {inp : Inp} {s : St}
    (hf : s.fsm = .finished) :
    step N K CW data inp s =
      { s with mem := memW s, rd_data := memGet (memW s) (rdAddrEff inp s),
               fsm := if inp.start then Fsm.finished else Fsm.idle } := by
  simp only [step, hf]

/-! ## Reachability invariant for the histogram hazard and the read mux -/

theorem CtrlInv_step (N K CW data : Nat) (inp : Inp) (s : St) (h : CtrlInv CW s) :
    CtrlInv CW (step N K CW data inp s) := by
  obtain ⟨hwin, harm⟩ := h
  cases hf : s.fsm <;> rw [hf] at hwin harm <;> simp only at harm
  case idle => rw [step_eq_idle hf]; by_cases hst : inp.start <;> simp [CtrlInv, hst, hwin]
  case clearInit => rw [step_eq_clearInit hf]; simp [CtrlInv, hwin]
  case clearStep =>
    by_cases hc : s.clr_idx = 15
    · rw [step_eq_clearStep_end hf hc]; simp [CtrlInv, hwin]
    · rw [step_eq_clearStep_mid hf hc]; simp [CtrlInv, hwin]
  case initEnum => rw [step_eq_initEnum hf]; simp [CtrlInv, hwin, harm]
  case scanSelect =>
    by_cases hi : s.scan_i < N
    · by_cases hb : s.mask.testBit s.scan_i
      · rcases Nat.lt_or_ge s.sel_count 2 with hc | hc
        · interval_cases hcv : s.sel_count
          · rw [step_eq_scan_take0 hf hi hb hcv]; simp [CtrlInv, hwin, harm, hf]
          · rw [step_eq_scan_take1 hf hi hb hcv]; simp [CtrlInv, hwin, harm, hf]
        · have hc0 : ¬ s.sel_count = 0 := by omega
          have hc1 : ¬ s.sel_count = 1 := by omega
          rw [show step N K CW data inp s =
            { s with mem := memW s, rd_data := memGet (memW s) (rdAddrEff inp s),
                     sel2 := nibble data s.scan_i,
                     sel_count := (s.sel_count + 1) % 4,
                     scan_i := s.scan_i + 1 } by
            simp only [step, hf, if_pos hi, hb, if_true, if_neg hc0, if_neg hc1]]
          simp [CtrlInv, hwin, harm, hf]
      · rw [step_eq_scan_skip hf hi (by simpa using hb)]
        simp [CtrlInv, hwin, harm, hf]
    · rw [step_eq_scan_exit hf hi]; simp [CtrlInv, hwin, harm]
  case doOneResult => rw [step_eq_doOne hf]; simp [CtrlInv, hwin, harm]
  case histRead =>
    rw [step_eq_histRead hf]
    simp [CtrlInv, hwin, harm, memW, rdAddrEff, harm.1, harm.2]
  case histWrite =>
    rw [step_eq_histWrite hf]
    simp [CtrlInv, hwin, memW, harm.1, harm.2.2]
  case advance =>
    by_cases hK : K = 2
    · subst hK
      by_cases ho : s.op1 = 9
      · rw [step_eq_advance2_last hf ho]; simp [CtrlInv, hwin]
      · rw [step_eq_advance2_cont hf ho]; simp [CtrlInv, hwin]
    · by_cases ho2 : s.op2 = 9
      · by_cases ho1 : s.op1 = 9
        · rw [step_eq_advance3_last hK hf ho2 ho1]; simp [CtrlInv, hwin]
        · rw [step_eq_advance3_outer hK hf ho2 ho1]; simp [CtrlInv, hwin]
      · rw [step_eq_advance3_inner hK hf ho2]; simp [CtrlInv, hwin]
  case nextSubset =>
    by_cases hm : s.mask = lastMask N K
    · rw [step_eq_next_last hf hm]; simp [CtrlInv, hwin, harm]
    · rw [step_eq_next_cont hf hm]; simp [CtrlInv, hwin, harm]
  case finished =>
    rw [step_eq_finished hf]
    by_cases hst : inp.start <;> simp [CtrlInv, hst, hwin]

theorem CtrlInv_Reach {N K CW : Nat} {s : St} (h : Reach N K CW s) : CtrlInv CW s := by
  induction h with
  | start => simp [CtrlInv, reset]
  | next data inp hs ih => exact CtrlInv_step N K CW data inp _ ih

/-- Every FSM arm leaves the committed memory equal to memW of the previous
    cycle. -/
theorem step_mem (N K CW data : Nat) (inp : Inp) (s : St) :
    (step N K CW data inp s).mem = memW s := by
  unfold step
  (repeat' split) <;> rfl

/-- Every FSM arm loads the read register from memW at the muxed address. -/
theorem step_rd_data (N K CW data : Nat) (inp : Inp) (s : St) :
    (step N K CW data inp s).rd_data = memGet (memW s) (rdAddrEff inp s) := by
  unfold step
  (repeat' split) <;> rfl

theorem Reach_iterC {N K CW data : Nat} {inp : Inp} (n : Nat) {s : St}
    (h : Reach N K CW s) : Reach N K CW (iterC N K CW data inp n s) := by
  induction n generalizing s with
  | zero => exact h
  | succ n ih => exact ih (Reach.next data inp h)

/-! ## Claim C7: hazard-safe read-modify-write -/

/-- Claim C7: in every reachable state, when the controller sits in
    HIST_WRITE the read register holds the current value of the target bin
    (no pending increment is missed), and during ADVANCE the registered
    write carries exactly that value plus one (in the CW-bit counter), so
    the commit at the end of ADVANCE increments the bin by exactly one. -/
theorem C7_hazard_read_before_write {N K CW : Nat} {s : St}
    (h : Reach N K CW s) :
    (s.fsm = .histWrite → s.rd_data = memGet s.mem s.bin_val) ∧
    (s.fsm = .advance →
      s.wr_en = true ∧ s.wr_addr = s.bin_val ∧
      s.wr_data = (memGet s.mem s.wr_addr + 1) % 2 ^ CW ∧
      ∀ data inp, (step N K CW data inp s).mem =
        memSet s.mem s.wr_addr ((memGet s.mem s.wr_addr + 1) % 2 ^ CW)) := by
  have hinv := CtrlInv_Reach h
  obtain ⟨hwin, harm⟩ := hinv
  constructor
  · intro hf
    rw [hf] at harm
    exact harm.2.2
  · intro hf
    rw [hf] at harm
    obtain ⟨hen, haddr, hdata⟩ := harm
    refine ⟨hen, haddr, by rw [haddr, hdata], ?_⟩
    intro data inp
    rw [step_mem, memW, if_pos hen, hdata, haddr]

/-- Witness for C7 at the first ADVANCE state of a concrete run. -/
theorem C7_hazard_read_before_write_witness :
    (iterC 2 2 32 255 ⟨true, 0⟩ 25 reset).wr_en = true ∧
    (iterC 2 2 32 255 ⟨true, 0⟩ 25 reset).wr_data =
      (memGet (iterC 2 2 32 255 ⟨true, 0⟩ 25 reset).mem
         (iterC 2 2 32 255 ⟨true, 0⟩ 25 reset).wr_addr + 1) % 2 ^ 32 :=
  ⟨((C7_hazard_read_before_write (Reach_iterC 25 Reach.start)).2 (by decide)).1,
   ((C7_hazard_read_before_write (Reach_iterC 25 Reach.start)).2 (by decide)).2.2.1⟩

/-! ## Claim C10: the internal/external read-address mux -/

/-- Claim C10: in every reachable state the internal-read flag is set exactly
    during HIST_READ, HIST_WRITE and ADVANCE (one cycle after DO_ONE_RESULT
    sets it until one cycle after ADVANCE clears it); while it is set, the
    read register loaded at the next edge is taken at the internal bin
    address and does not depend on the external rd_addr; while it is clear
    (in particular in IDLE and DONE) the read register is loaded at the
    external rd_addr. -/
theorem C10_internal_read_mux {N K CW : Nat} {s : St}
    (h : Reach N K CW s) :
    (s.use_internal_read = true ↔
        (s.fsm = .histRead ∨ s.fsm = .histWrite ∨ s.fsm = .advance)) ∧
    ((s.fsm = .idle ∨ s.fsm = .finished) → s.use_internal_read = false) ∧
    (s.use_internal_read = true → ∀ data inp inp2,
        (step N K CW data inp s).rd_data = (step N K CW data inp2 s).rd_data ∧
        (step N K CW data inp s).rd_data = memGet (memW s) s.int_rd_addr) ∧
    (s.use_internal_read = false → ∀ data inp,
        (step N K CW data inp s).rd_data = memGet (memW s) (inp.rd_addr % 16)) := by
  have hwin := (CtrlInv_Reach h).1
  refine ⟨hwin, ?_, ?_, ?_⟩
  · rintro (hf | hf) <;>
      { cases hu : s.use_internal_read
        · rfl
        · exfalso
          rcases hwin.mp hu with h1 | h1 | h1 <;> rw [hf] at h1 <;>
            exact Fsm.noConfusion h1 }
  · intro hu data inp inp2
    rw [step_rd_data, step_rd_data]
    simp only [rdAddrEff, hu, if_true]
    exact ⟨trivial, trivial⟩
  · intro hu data inp
    rw [step_rd_data]
    simp only [rdAddrEff, hu, Bool.false_eq_true, if_false]

/-- Witness for C10 at the first HIST_READ state of a concrete run: two
    different external addresses give the same internally-read value. -/
theorem C10_internal_read_mux_witness :
    (step 2 2 32 255 ⟨true, 3⟩ (iterC 2 2 32 255 ⟨true, 0⟩ 23 reset)).rd_data =
      (step 2 2 32 255 ⟨true, 7⟩ (iterC 2 2 32 255 ⟨true, 0⟩ 23 reset)).rd_data :=
  (((C10_internal_read_mux (Reach_iterC 23 Reach.start)).2.2.1 (by decide))
    255 ⟨true, 3⟩ ⟨true, 7⟩).1

/-! ## popCount toolkit -/

theorem popCountAux_congr : ∀ f1 f2 n : Nat, n ≤ f1 → n ≤ f2 →
    popCountAux f1 n = popCountAux f2 n := by
  intro f1
  induction f1 with
  | zero =>
    intro f2 n h1 h2
    interval_cases n
    cases f2 <;> rfl
  | succ f1 ih =>
    intro f2 n h1 h2
    by_cases hn : n = 0
    · subst hn; cases f2 <;> simp [popCountAux]
    · obtain ⟨f2p, rfl⟩ : ∃ f2p, f2 = f2p + 1 := ⟨f2 - 1, by omega⟩
      simp only [popCountAux, if_neg hn]
      have := ih f2p (n / 2) (by omega) (by omega)
      omega

theorem popCount_zero : popCount 0 = 0 := rfl

theorem popCount_div2 (n : Nat) : popCount n = popCount (n / 2) + n % 2 := by
  by_cases hn : n = 0
  · subst hn; rfl
  · show popCountAux n n = popCountAux (n / 2) (n / 2) + n % 2
    obtain ⟨np, rfl⟩ : ∃ np, n = np + 1 := ⟨n - 1, by omega⟩
    simp only [popCountAux, if_neg hn]
    have := popCountAux_congr np (n := (np + 1) / 2) ((np + 1) / 2) (by omega) (by omega)
    omega

theorem popCount_two_mul_add (x b : Nat) (hb : b < 2) :
    popCount (2 * x + b) = popCount x + b := by
  rw [popCount_div2 (2 * x + b)]
  have h1 : (2 * x + b) / 2 = x := by omega
  have h2 : (2 * x + b) % 2 = b := by omega
  rw [h1, h2]

theorem popCount_eq_zero {n : Nat} : popCount n = 0 ↔ n = 0 := by
  constructor
  · intro h
    induction n using Nat.strong_induction_on with
    | _ n ih =>
      by_cases hn : n = 0
      · exact hn
      · exfalso
        rw [popCount_div2] at h
        have h2 := ih (n / 2) (by omega) (by omega)
        omega
  · rintro rfl; exact popCount_zero

theorem popCount_mul_pow_add (s : Nat) :
    ∀ a y, y < 2 ^ s → popCount (2 ^ s * a + y) = popCount a + popCount y := by
  induction s with
  | zero =>
    intro a y hy
    interval_cases y
    simp [popCount_zero]
  | succ s ih =>
    intro a y hy
    have hy2 : y / 2 < 2 ^ s := by omega
    have hsplit : 2 ^ (s + 1) * a + y = 2 * (2 ^ s * a + y / 2) + y % 2 := by
      have := Nat.div_add_mod y 2
      ring_nf
      omega
    rw [hsplit, popCount_two_mul_add _ _ (Nat.mod_lt _ (by omega)), ih a (y / 2) hy2,
        popCount_div2 y]
    omega

theorem popCount_two_pow_sub_one (k : Nat) : popCount (2 ^ k - 1) = k := by
  induction k with
  | zero => exact popCount_zero
  | succ k ih =>
    have h : 2 ^ (k + 1) - 1 = 2 * (2 ^ k - 1) + 1 := by
      have : 1 ≤ 2 ^ k := Nat.one_le_two_pow
      omega
    rw [h, popCount_two_mul_add _ _ (by omega), ih]

theorem popCount_two_pow (k : Nat) : popCount (2 ^ k) = 1 := by
  have h : 2 ^ k = 2 ^ k * 1 + 0 := by omega
  rw [h, popCount_mul_pow_add k 1 0 (Nat.pos_pow_of_pos k (by omega)),
      popCount_zero]
  have h1 : popCount 1 = 1 := by
    rw [popCount_div2]
    simp [popCount_zero]
  omega

theorem popCount_le_of_lt_two_pow {e k : Nat} (he : e < 2 ^ k) :
    popCount e ≤ k ∧ (popCount e = k → e = 2 ^ k - 1) := by
  induction k generalizing e with
  | zero =>
    interval_cases e
    simp [popCount_zero]
  | succ k ih =>
    have he2 : e / 2 < 2 ^ k := by omega
    obtain ⟨ih1, ih2⟩ := ih he2
    rw [popCount_div2 e]
    constructor
    · omega
    · intro h
      have h1 : popCount (e / 2) = k := by omega
      have h2 : e % 2 = 1 := by omega
      have := ih2 h1
      have hp : 1 ≤ 2 ^ k := Nat.one_le_two_pow
      omega

/-! ## Bitwise algebra toolkit -/

theorem xor_two_mul_add {b d : Nat} (a c : Nat) (hb : b < 2) (hd : d < 2) :
    (2 * a + b) ^^^ (2 * c + d) = 2 * (a ^^^ c) + (b ^^^ d) := by
  interval_cases b <;> interval_cases d
  · simpa [Nat.bit] using Nat.xor_bit false a false c
  · simpa [Nat.bit] using Nat.xor_bit false a true c
  · simpa [Nat.bit] using Nat.xor_bit true a false c
  · simpa [Nat.bit] using Nat.xor_bit true a true c

theorem land_two_mul_add {b d : Nat} (a c : Nat) (hb : b < 2) (hd : d < 2) :
    (2 * a + b) &&& (2 * c + d) = 2 * (a &&& c) + (b &&& d) := by
  interval_cases b <;> interval_cases d
  · simpa [Nat.bit] using Nat.land_bit false a false c
  · simpa [Nat.bit] using Nat.land_bit false a true c
  · simpa [Nat.bit] using Nat.land_bit true a false c
  · simpa [Nat.bit] using Nat.land_bit true a true c

theorem testBit_mul_pow (t x j : Nat) :
    (2 ^ t * x).testBit j = if j < t then false else x.testBit (j - t) := by
  have h := Nat.testBit_mul_pow_two_add x (show 0 < 2 ^ t from Nat.pos_pow_of_pos t (by omega)) j
  simpa using h

theorem land_mul_pow (t x y : Nat) :
    (2 ^ t * x) &&& (2 ^ t * y) = 2 ^ t * (x &&& y) := by
  apply Nat.eq_of_testBit_eq
  intro i
  rw [Nat.testBit_land, testBit_mul_pow, testBit_mul_pow, testBit_mul_pow,
      Nat.testBit_land]
  by_cases h : i < t <;> simp [h]

theorem complement_land_eq_zero (k : Nat) :
    ∀ x, x < 2 ^ k → x &&& (2 ^ k - 1 - x) = 0 := by
  induction k with
  | zero => intro x hx; interval_cases x; rfl
  | succ k ih =>
    intro x hx
    have hq : x / 2 < 2 ^ k := by omega
    have hp : 1 ≤ 2 ^ k := Nat.one_le_two_pow
    have hx2 : x = 2 * (x / 2) + x % 2 := by omega
    have hy : 2 ^ (k + 1) - 1 - x = 2 * (2 ^ k - 1 - x / 2) + (1 - x % 2) := by
      rw [pow_succ] at hx ⊢
      omega
    have key := land_two_mul_add (b := x % 2) (d := 1 - x % 2)
      (x / 2) (2 ^ k - 1 - x / 2) (by omega) (by omega)
    rw [← hx2, ← hy] at key
    rw [key, ih _ hq]
    have hz : x % 2 &&& (1 - x % 2) = 0 := by
      rcases Nat.mod_two_eq_zero_or_one x with h | h <;> rw [h] <;> rfl
    rw [hz]

theorem odd_land_two_pow_sub {s u : Nat} (hodd : u % 2 = 1) (hu : u < 2 ^ s) :
    u &&& (2 ^ s - u) = 1 := by
  have hs : 1 ≤ s := by
    by_contra h
    interval_cases s <;> omega
  have hp : 1 ≤ 2 ^ (s - 1) := Nat.one_le_two_pow
  have hv : u = 2 * (u / 2) + 1 := by omega
  have hw : 2 ^ s - u = 2 * (2 ^ (s - 1) - 1 - u / 2) + 1 := by
    have h2 : 2 ^ s = 2 * 2 ^ (s - 1) := by
      rw [← pow_succ']
      congr 1
      omega
    omega
  have hq : u / 2 < 2 ^ (s - 1) := by
    have h2 : 2 ^ s = 2 * 2 ^ (s - 1) := by
      rw [← pow_succ']
      congr 1
      omega
    omega
  have key := land_two_mul_add (b := 1) (d := 1)
    (u / 2) (2 ^ (s - 1) - 1 - u / 2) (by omega) (by omega)
  rw [← hv, ← hw] at key
  rw [key, complement_land_eq_zero _ _ hq]
  rfl

theorem lor_mul_pow_add (s x y : Nat) (hy : y < 2 ^ s) :
    (2 ^ s * x) ||| y = 2 ^ s * x + y := by
  apply Nat.eq_of_testBit_eq
  intro i
  rw [Nat.testBit_lor, testBit_mul_pow, Nat.testBit_mul_pow_two_add x hy i]
  by_cases h : i < s
  · simp [h]
  · have hyi : y.testBit i = false :=
      Nat.testBit_eq_false_of_lt
        (lt_of_lt_of_le hy (Nat.pow_le_pow_right (by omega) (by omega)))
    simp [h, hyi]

theorem xor_run_eq_ones (m a : Nat) (hm : 1 ≤ m) :
    (2 ^ (m + 1) * a + 2 ^ m) ^^^ (2 ^ (m + 1) * a + (2 ^ m - 1)) =
      2 ^ (m + 1) - 1 := by
  apply Nat.eq_of_testBit_eq
  intro j
  have h1 : (2 : Nat) ^ m < 2 ^ (m + 1) := Nat.pow_lt_pow_right (by omega) (by omega)
  have h2 : (2 : Nat) ^ m - 1 < 2 ^ (m + 1) := by omega
  rw [Nat.testBit_xor, Nat.testBit_mul_pow_two_add a h1 j,
      Nat.testBit_mul_pow_two_add a h2 j, Nat.testBit_two_pow_sub_one]
  by_cases hj : j < m + 1
  · rw [if_pos hj, if_pos hj, Nat.testBit_two_pow, Nat.testBit_two_pow_sub_one]
    by_cases hjm : j < m
    · have : ¬ m = j := by omega
      simp [hjm, hj, this]
    · have hmj : m = j := by omega
      simp [hjm, hj, hmj]
  · rw [if_neg hj, if_neg hj]
    simp [hj]

theorem xor_mul_pow (t x y : Nat) :
    (2 ^ t * x) ^^^ (2 ^ t * y) = 2 ^ t * (x ^^^ y) := by
  apply Nat.eq_of_testBit_eq
  intro i
  rw [Nat.testBit_xor, testBit_mul_pow, testBit_mul_pow, testBit_mul_pow]
  by_cases h : i < t <;> simp [h, Nat.testBit_xor]

/-! ## Structure of an arbitrary nonzero mask: trailing zeros, then a run of
    ones, then the rest -/

theorem odd_decomp : ∀ u, u % 2 = 1 →
    ∃ m a, 1 ≤ m ∧ u = 2 ^ (m + 1) * a + (2 ^ m - 1) := by
  intro u
  induction u using Nat.strong_induction_on with
  | _ u ih =>
    intro hodd
    rcases Nat.mod_two_eq_zero_or_one (u / 2) with he | ho
    · refine ⟨1, u / 2 / 2, by omega, ?_⟩
      have h4 : (2 : Nat) ^ (1 + 1) = 4 := by norm_num
      have h1 : (2 : Nat) ^ 1 = 2 := by norm_num
      rw [h4, h1]
      omega
    · have hlt : u / 2 < u := by omega
      obtain ⟨m, a, hm, he⟩ := ih (u / 2) hlt ho
      refine ⟨m + 1, a, by omega, ?_⟩
      have h1 : (2 : Nat) ^ (m + 1 + 1) * a = 2 * (2 ^ (m + 1) * a) := by
        rw [pow_succ]; ring
      have h2 : (2 : Nat) ^ (m + 1) = 2 * 2 ^ m := by
        rw [pow_succ]; ring
      have hp : 1 ≤ (2 : Nat) ^ m := Nat.one_le_two_pow
      omega

theorem mask_decomp {N K mask : Nat} (hlt : mask < 2 ^ N)
    (hpc : popCount mask = K) (hne : mask ≠ lastMask N K) :
    ∃ t m a, 1 ≤ m ∧ mask = 2 ^ t * (2 ^ (m + 1) * a + (2 ^ m - 1)) := by
  have hne0 : mask ≠ 0 := by
    intro h0
    apply hne
    rw [h0]
    rw [h0, popCount_zero] at hpc
    rw [lastMask, ← hpc]
    norm_num
  obtain ⟨t, u, huodd, hmask⟩ := Nat.exists_eq_two_pow_mul_odd hne0
  obtain ⟨m, a, hm, hu⟩ := odd_decomp u (Nat.odd_iff.mp huodd)
  exact ⟨t, m, a, hm, by rw [hmask, hu]⟩

/-- popCount of a mask in decomposed form. -/
theorem popCount_decomp (t m a : Nat) (hm : 1 ≤ m) :
    popCount (2 ^ t * (2 ^ (m + 1) * a + (2 ^ m - 1))) = popCount a + m := by
  have h0 : 2 ^ t * (2 ^ (m + 1) * a + (2 ^ m - 1)) =
      2 ^ t * (2 ^ (m + 1) * a + (2 ^ m - 1)) + 0 := by omega
  rw [h0, popCount_mul_pow_add t _ 0 (Nat.pos_pow_of_pos t (by omega)),
      popCount_zero, popCount_mul_pow_add (m + 1) a (2 ^ m - 1)
        (by have hp : 1 ≤ (2 : Nat) ^ m := Nat.one_le_two_pow
            have : (2 : Nat) ^ (m + 1) = 2 * 2 ^ m := by rw [pow_succ]; ring
            omega),
      popCount_two_pow_sub_one]
  omega

/-- The Switch-based trailing zero lookup finds t when c = 2 ^ t, t < N. -/
theorem find_range_two_pow {N t : Nat} (h : t < N) :
    (List.range N).find? (fun i => decide ((2 : Nat) ^ t = 2 ^ i)) = some t := by
  have hsplit : N = t + (N - t) := by omega
  rw [hsplit, List.range_add, List.find?_append]
  have hnone : (List.range t).find? (fun i => decide ((2 : Nat) ^ t = 2 ^ i)) = none := by
    rw [List.find?_eq_none]
    intro i hi
    simp only [decide_eq_true_eq]
    intro he
    have := Nat.pow_right_injective (le_refl 2) he
    rw [List.mem_range] at hi
    omega
  rw [hnone]
  obtain ⟨d, hd⟩ : ∃ d, N - t = d + 1 := ⟨N - t - 1, by omega⟩
  rw [hd, List.range_succ_eq_map, List.map_cons, List.find?_cons]
  simp

/-- Closed form of the Gosper successor logic on a decomposed mask: the run
    of m ones at offset t becomes one bit at t + m plus m - 1 low ones. -/
theorem gosperNext_closed {N t m a : Nat} (hm : 1 ≤ m)
    (hlt : 2 ^ t * (2 ^ (m + 1) * a + (2 ^ m - 1)) < 2 ^ N)
    (hrlt : 2 ^ (t + m) * (2 * a + 1) < 2 ^ N) :
    gosperNext N (2 ^ t * (2 ^ (m + 1) * a + (2 ^ m - 1))) =
      2 ^ (t + m) * (2 * a + 1) + (2 ^ (m - 1) - 1) := by
  set u := 2 ^ (m + 1) * a + (2 ^ m - 1) with hu_def
  set M := 2 ^ t * u with hM_def
  have hp_m : 1 ≤ (2 : Nat) ^ m := Nat.one_le_two_pow
  have hp_t : 1 ≤ (2 : Nat) ^ t := Nat.one_le_two_pow
  have hp_m1 : (2 : Nat) ^ (m + 1) = 2 * 2 ^ m := by rw [pow_succ]; ring
  have hu_odd : u % 2 = 1 := by
    have h2 : 2 ^ (m + 1) * a = 2 * (2 ^ m * a) := by rw [hp_m1]; ring
    have h3 : (2 : Nat) ^ m = 2 * 2 ^ (m - 1) := by
      rw [← pow_succ']
      congr 1
      omega
    omega
  have hu_pos : 1 ≤ u := by omega
  have ht_le : 2 ^ t ≤ M := by
    rw [hM_def]
    calc 2 ^ t = 2 ^ t * 1 := by omega
    _ ≤ 2 ^ t * u := Nat.mul_le_mul_left _ hu_pos
  have htN : t < N := by
    rw [← Nat.pow_lt_pow_iff_right (a := 2) (by omega)]
    omega
  have h2N : (2 : Nat) ^ N = 2 ^ t * 2 ^ (N - t) := by
    rw [← pow_add]
    congr 1
    omega
  have hu_lt : u < 2 ^ (N - t) := by
    apply Nat.lt_of_mul_lt_mul_left (a := 2 ^ t)
    rw [← h2N]
    exact hlt
  have hMmod : M % 2 ^ N = M := Nat.mod_eq_of_lt hlt
  have hneg : negMask N M = 2 ^ t * (2 ^ (N - t) - u) := by
    rw [negMask, hMmod, Nat.mod_eq_of_lt (by omega), h2N, hM_def, ← Nat.mul_sub]
  have hc : cOf N M = 2 ^ t := by
    rw [cOf, hMmod, hneg, hM_def, land_mul_pow,
        odd_land_two_pow_sub hu_odd hu_lt, mul_one]
  have hv : u + 1 = 2 ^ (m + 1) * a + 2 ^ m := by omega
  have hsplit_r : 2 ^ (t + m) * (2 * a + 1) = 2 ^ t * (2 ^ (m + 1) * a + 2 ^ m) := by
    rw [pow_add, hp_m1]
    ring
  have hr : rOf N M = 2 ^ (t + m) * (2 * a + 1) := by
    rw [rOf, hMmod, hc, hM_def, ← Nat.mul_succ, Nat.succ_eq_add_one, hv, hsplit_r]
  have hx : xOf N M = 2 ^ t * (2 ^ (m + 1) - 1) := by
    rw [xOf, hMmod, hr, hM_def, hsplit_r, xor_mul_pow, xor_run_eq_ones m a hm]
  have htz : tzOf N M = t := by
    rw [tzOf]
    simp only [hc]
    rw [find_range_two_pow htN]
  have hsh : (xOf N M >>> 2) >>> tzOf N M = 2 ^ (m - 1) - 1 := by
    rw [hx, htz, Nat.shiftRight_eq_div_pow, Nat.shiftRight_eq_div_pow,
        Nat.div_div_eq_div_mul]
    have h4 : (2 : Nat) ^ 2 * 2 ^ t = 2 ^ t * 4 := by ring
    rw [h4, ← Nat.div_div_eq_div_mul,
        Nat.mul_div_cancel_left _ (Nat.pos_pow_of_pos t (by omega))]
    have h5 : (2 : Nat) ^ (m + 1) = 4 * 2 ^ (m - 1) := by
      rw [show m + 1 = 2 + (m - 1) by omega, pow_add]
      norm_num
    omega
  have htm_lt : t + m < N := by
    rw [← Nat.pow_lt_pow_iff_right (a := 2) (by omega)]
    calc (2 : Nat) ^ (t + m) ≤ 2 ^ (t + m) * (2 * a + 1) := by
          calc (2 : Nat) ^ (t + m) = 2 ^ (t + m) * 1 := by omega
          _ ≤ _ := Nat.mul_le_mul_left _ (by omega)
    _ < 2 ^ N := hrlt
  have hD : (2 : Nat) ^ N = 2 ^ (t + m) * 2 ^ (N - t - m) := by
    rw [← pow_add]
    congr 1
    omega
  have hlow : 2 ^ (m - 1) - 1 < 2 ^ (t + m) := by
    have h1 : (2 : Nat) ^ (m - 1) ≤ 2 ^ (t + m) := Nat.pow_le_pow_right (by omega) (by omega)
    have h2 : 1 ≤ (2 : Nat) ^ (m - 1) := Nat.one_le_two_pow
    omega
  have hfinal : 2 ^ (t + m) * (2 * a + 1) + (2 ^ (m - 1) - 1) < 2 ^ N := by
    have ha_lt : 2 * a + 1 < 2 ^ (N - t - m) := by
      apply Nat.lt_of_mul_lt_mul_left (a := 2 ^ (t + m))
      rw [← hD]
      exact hrlt
    have hstep : 2 ^ (t + m) * (2 * a + 1) ≤ 2 ^ (t + m) * (2 ^ (N - t - m) - 1) :=
      Nat.mul_le_mul_left _ (by omega)
    have hsum : 2 ^ (t + m) * (2 ^ (N - t - m) - 1) + 2 ^ (t + m) = 2 ^ N := by
      rw [Nat.mul_sub, hD]
      have : 2 ^ (t + m) ≤ 2 ^ (t + m) * 2 ^ (N - t - m) := by
        calc (2 : Nat) ^ (t + m) = 2 ^ (t + m) * 1 := by omega
        _ ≤ _ := Nat.mul_le_mul_left _ Nat.one_le_two_pow
      omega
    omega
  rw [gosperNext, hsh, hr, Nat.lor_comm, lor_mul_pow_add _ _ _ hlow]
  exact Nat.mod_eq_of_lt hfinal

/-- r = mask + c stays below 2 ^ N whenever the mask is not the terminal
    mask (the run of ones is not already at the top). -/
theorem r_lt_of_ne_last {N K t m a : Nat} (hm : 1 ≤ m)
    (hlt : 2 ^ t * (2 ^ (m + 1) * a + (2 ^ m - 1)) < 2 ^ N)
    (hK : popCount (2 ^ t * (2 ^ (m + 1) * a + (2 ^ m - 1))) = K)
    (hne : 2 ^ t * (2 ^ (m + 1) * a + (2 ^ m - 1)) ≠ lastMask N K) :
    2 ^ (t + m) * (2 * a + 1) < 2 ^ N := by
  have hp_m : 1 ≤ (2 : Nat) ^ m := Nat.one_le_two_pow
  have hp2_m : 2 ≤ (2 : Nat) ^ m := by
    calc (2 : Nat) = 2 ^ 1 := by norm_num
    _ ≤ 2 ^ m := Nat.pow_le_pow_right (by omega) hm
  have hp_t : 1 ≤ (2 : Nat) ^ t := Nat.one_le_two_pow
  have hp_m1 : (2 : Nat) ^ (m + 1) = 2 * 2 ^ m := by rw [pow_succ]; ring
  have htN : t < N := by
    rw [← Nat.pow_lt_pow_iff_right (a := 2) (by omega)]
    have h1 : 2 ^ t ≤ 2 ^ t * (2 ^ (m + 1) * a + (2 ^ m - 1)) :=
      Nat.le_mul_of_pos_right _ (by omega)
    exact lt_of_le_of_lt h1 hlt
  have h2N : (2 : Nat) ^ N = 2 ^ t * 2 ^ (N - t) := by
    rw [← pow_add]; congr 1; omega
  have hu_lt : 2 ^ (m + 1) * a + (2 ^ m - 1) < 2 ^ (N - t) := by
    apply Nat.lt_of_mul_lt_mul_left (a := 2 ^ t)
    rw [← h2N]; exact hlt
  have hsplit_r : 2 ^ (t + m) * (2 * a + 1) = 2 ^ t * (2 ^ (m + 1) * a + 2 ^ m) := by
    rw [pow_add, hp_m1]; ring
  have hr_le : 2 ^ (t + m) * (2 * a + 1) ≤ 2 ^ N := by
    rw [hsplit_r, h2N]
    exact Nat.mul_le_mul_left _ (by omega)
  rcases Nat.lt_or_ge (2 ^ (t + m) * (2 * a + 1)) (2 ^ N) with h | h
  · exact h
  · exfalso
    have heq : 2 ^ (t + m) * (2 * a + 1) = 2 ^ N := by omega
    have htm_le : t + m ≤ N := by
      rw [← Nat.pow_le_pow_iff_right (a := 2) (by omega)]
      calc (2 : Nat) ^ (t + m) ≤ 2 ^ (t + m) * (2 * a + 1) :=
            Nat.le_mul_of_pos_right _ (by omega)
      _ = 2 ^ N := heq
    have hNsplit : (2 : Nat) ^ N = 2 ^ (t + m) * 2 ^ (N - t - m) := by
      rw [← pow_add]; congr 1; omega
    have ha_eq : 2 * a + 1 = 2 ^ (N - t - m) := by
      rw [hNsplit] at heq
      exact Nat.eq_of_mul_eq_mul_left (Nat.pos_pow_of_pos _ (by omega)) heq
    have hNtm : N - t - m = 0 := by
      by_contra hd
      have h2 : (2 : Nat) ^ (N - t - m) = 2 * 2 ^ (N - t - m - 1) := by
        rw [← pow_succ']; congr 1; omega
      omega
    have ha0 : a = 0 := by
      rw [hNtm] at ha_eq
      simpa using ha_eq
    apply hne
    subst ha0
    have hKm : K = m := by
      rw [← hK, popCount_decomp t m 0 hm, popCount_zero]
      omega
    rw [hKm, lastMask]
    have hNm : N - m = t := by omega
    rw [hNm]
    simp only [Nat.mul_zero, Nat.zero_add]
    rw [Nat.mul_comm]

/-- Full correctness of the Gosper successor: from any non-terminal N-bit
    mask of popcount K it produces the numerically smallest N-bit value
    strictly above the mask whose popcount is also K. -/
theorem gosper_correct {N K mask : Nat} (hlt : mask < 2 ^ N)
    (hpc : popCount mask = K) (hne : mask ≠ lastMask N K) :
    mask < gosperNext N mask ∧ gosperNext N mask < 2 ^ N ∧
      popCount (gosperNext N mask) = K ∧
      ∀ y, mask < y → y < gosperNext N mask → popCount y ≠ K := by
  obtain ⟨t, m, a, hm, hdec⟩ := mask_decomp hlt hpc hne
  subst hdec
  have hrlt := r_lt_of_ne_last hm hlt hpc hne
  rw [gosperNext_closed hm hlt hrlt]
  have hp_m : 1 ≤ (2 : Nat) ^ m := Nat.one_le_two_pow
  have hp2_m : 2 ≤ (2 : Nat) ^ m := by
    calc (2 : Nat) = 2 ^ 1 := by norm_num
    _ ≤ 2 ^ m := Nat.pow_le_pow_right (by omega) hm
  have hp_t : 1 ≤ (2 : Nat) ^ t := Nat.one_le_two_pow
  have hp_tm : 1 ≤ (2 : Nat) ^ (t + m) := Nat.one_le_two_pow
  have hp_m1 : (2 : Nat) ^ (m + 1) = 2 * 2 ^ m := by rw [pow_succ]; ring
  have hp_mm : 1 ≤ (2 : Nat) ^ (m - 1) := Nat.one_le_two_pow
  have hsplit_r : 2 ^ (t + m) * (2 * a + 1) = 2 ^ t * (2 ^ (m + 1) * a + 2 ^ m) := by
    rw [pow_add, hp_m1]; ring
  have hmul_add : 2 ^ t * (2 ^ (m + 1) * a + 2 ^ m) =
      2 ^ t * (2 ^ (m + 1) * a + (2 ^ m - 1)) + 2 ^ t := by
    rw [← Nat.mul_succ]
    congr 1
    omega
  have hmask_r : 2 ^ (t + m) * (2 * a + 1) =
      2 ^ t * (2 ^ (m + 1) * a + (2 ^ m - 1)) + 2 ^ t := by
    rw [hsplit_r, hmul_add]
  have hlow : 2 ^ (m - 1) - 1 < 2 ^ (t + m) := by
    have h1 : (2 : Nat) ^ (m - 1) ≤ 2 ^ (t + m) := Nat.pow_le_pow_right (by omega) (by omega)
    omega
  have hpc_next : popCount (2 ^ (t + m) * (2 * a + 1) + (2 ^ (m - 1) - 1)) = K := by
    rw [popCount_mul_pow_add _ _ _ (by omega), popCount_two_pow_sub_one]
    have h1 : popCount (2 * a + 1) = popCount a + 1 := popCount_two_mul_add a 1 (by omega)
    have h2 : popCount (2 ^ t * (2 ^ (m + 1) * a + (2 ^ m - 1))) = popCount a + m :=
      popCount_decomp t m a hm
    omega
  refine ⟨by omega, ?_, hpc_next, ?_⟩
  · -- strictly below 2 ^ N
    have htm_lt : t + m < N := by
      rw [← Nat.pow_lt_pow_iff_right (a := 2) (by omega)]
      exact lt_of_le_of_lt (Nat.le_mul_of_pos_right _ (by omega)) hrlt
    have hD : (2 : Nat) ^ N = 2 ^ (t + m) * 2 ^ (N - t - m) := by
      rw [← pow_add]; congr 1; omega
    have ha_lt : 2 * a + 1 < 2 ^ (N - t - m) := by
      apply Nat.lt_of_mul_lt_mul_left (a := 2 ^ (t + m))
      rw [← hD]; exact hrlt
    have hstep : 2 ^ (t + m) * (2 * a + 1) ≤ 2 ^ (t + m) * (2 ^ (N - t - m) - 1) :=
      Nat.mul_le_mul_left _ (by omega)
    have hsum : 2 ^ (t + m) * (2 ^ (N - t - m) - 1) + 2 ^ (t + m) = 2 ^ N := by
      rw [Nat.mul_sub, hD]
      have h1 : 2 ^ (t + m) ≤ 2 ^ (t + m) * 2 ^ (N - t - m) :=
        Nat.le_mul_of_pos_right _ (by omega)
      omega
    omega
  · -- minimality
    intro y hy1 hy2
    have hpcM : popCount (2 ^ t * (2 ^ (m + 1) * a + (2 ^ m - 1))) = popCount a + m :=
      popCount_decomp t m a hm
    have hpc2a : popCount (2 * a) = popCount a := by
      have := popCount_two_mul_add a 0 (by omega)
      simpa using this
    rcases Nat.lt_or_ge y (2 ^ (t + m) * (2 * a + 1)) with hcase | hcase
    · -- inside the gap cleared below the moved bit: popcount exceeds K
      set d := 2 ^ (t + m) * (2 * a + 1) - y with hd_def
      have hd1 : 1 ≤ d := by omega
      have hd2 : d < 2 ^ t := by omega
      have hPsplit : 2 ^ (t + m) * (2 * a + 1) =
          2 ^ (t + m) * (2 * a) + 2 ^ (t + m) := by ring
      have hy_eq : y = 2 ^ (t + m) * (2 * a) + (2 ^ (t + m) - d) := by
        have ht_le_tm : (2 : Nat) ^ t ≤ 2 ^ (t + m) :=
          Nat.pow_le_pow_right (by omega) (by omega)
        omega
      have hpc_y : popCount y = popCount a + popCount (2 ^ (t + m) - d) := by
        rw [hy_eq, popCount_mul_pow_add _ _ _ (by omega), hpc2a]
      have hsub_split : 2 ^ (t + m) - d = 2 ^ t * (2 ^ m - 1) + (2 ^ t - d) := by
        have e1 : 2 ^ t * (2 ^ m - 1) = 2 ^ t * 2 ^ m - 2 ^ t := by
          rw [Nat.mul_sub]; omega
        have e2 : (2 : Nat) ^ (t + m) = 2 ^ t * 2 ^ m := by rw [pow_add]
        have e3 : (2 : Nat) ^ t ≤ 2 ^ t * 2 ^ m := Nat.le_mul_of_pos_right _ (by omega)
        omega
      have hpc_sub : popCount (2 ^ (t + m) - d) = m + popCount (2 ^ t - d) := by
        rw [hsub_split, popCount_mul_pow_add _ _ _ (by omega), popCount_two_pow_sub_one]
      have hpos : 1 ≤ popCount (2 ^ t - d) := by
        rcases Nat.eq_zero_or_pos (popCount (2 ^ t - d)) with h0 | h1
        · rw [popCount_eq_zero] at h0
          omega
        · exact h1
      omega
    · -- inside the low ones: popcount falls short of K
      set e := y - 2 ^ (t + m) * (2 * a + 1) with he_def
      have he2 : e < 2 ^ (m - 1) - 1 := by omega
      have hy_eq : y = 2 ^ (t + m) * (2 * a + 1) + e := by omega
      have hpc_y : popCount y = popCount a + 1 + popCount e := by
        rw [hy_eq, popCount_mul_pow_add _ _ _ (by omega),
            popCount_two_mul_add a 1 (by omega)]
      obtain ⟨hle, heq⟩ := popCount_le_of_lt_two_pow (e := e) (k := m - 1) (by omega)
      intro hKeq
      have : popCount e = m - 1 := by omega
      have := heq this
      omega

/-! ## Claim C5: the Gosper successor is the next K-popcount mask -/

/-- Claim C5: for every N-bit mask of popcount K other than the terminal
    mask, the value computed by the neg/land/add/xor/shift/or network of
    src/top.py lines 101-114 (gosperNext) is the numerically smallest N-bit
    value strictly greater than the mask whose popcount is also K. -/
theorem C5_gosper_successor {N K mask : Nat} (h1 : mask < 2 ^ N)
    (h2 : popCount mask = K) (h3 : mask ≠ lastMask N K) :
    mask < gosperNext N mask ∧ gosperNext N mask < 2 ^ N ∧
      popCount (gosperNext N mask) = K ∧
      ∀ y, mask < y → y < gosperNext N mask → popCount y ≠ K :=
  gosper_correct h1 h2 h3

/-- Witness for C5 at N = 4, mask = 0b0011, whose successor is 0b0101; the
    skipped value 0b0100 has popcount 1, not 2. -/
theorem C5_gosper_successor_witness :
    3 < gosperNext 4 3 ∧ gosperNext 4 3 < 2 ^ 4 ∧
      popCount (gosperNext 4 3) = 2 ∧ popCount 4 ≠ 2 :=
  ⟨(@C5_gosper_successor 4 2 3 (by decide) (by decide) (by decide)).1,
   (@C5_gosper_successor 4 2 3 (by decide) (by decide) (by decide)).2.1,
   (@C5_gosper_successor 4 2 3 (by decide) (by decide) (by decide)).2.2.1,
   (@C5_gosper_successor 4 2 3 (by decide) (by decide) (by decide)).2.2.2 4
     (by decide) (by decide)⟩

/-! ## Extremal masks: the initial mask is the least and the terminal mask
    the greatest N-bit value of a given popcount -/

theorem popCount_one : popCount 1 = 1 := rfl

theorem ge_initMask {K x : Nat} (hpc : popCount x = K) : 2 ^ K - 1 ≤ x := by
  induction x using Nat.strong_induction_on generalizing K with
  | _ x ih =>
    by_cases hx : x = 0
    · subst hx
      rw [popCount_zero] at hpc
      subst hpc
      norm_num
    · have hsplit := popCount_div2 x
      rcases Nat.mod_two_eq_zero_or_one x with hb | hb
      · have hK : popCount (x / 2) = K := by omega
        have := ih (x / 2) (by omega) hK
        have hp : 1 ≤ (2 : Nat) ^ K := Nat.one_le_two_pow
        omega
      · have hK1 : 1 ≤ K := by omega
        have hK : popCount (x / 2) = K - 1 := by omega
        have := ih (x / 2) (by omega) hK
        have h2 : (2 : Nat) ^ K = 2 * 2 ^ (K - 1) := by
          rw [← pow_succ']; congr 1; omega
        omega

theorem le_lastMask {N K x : Nat} (hx : x < 2 ^ N) (hpc : popCount x = K) :
    x ≤ lastMask N K := by
  induction N generalizing x K with
  | zero => omega
  | succ N ih =>
    by_cases hhi : x < 2 ^ N
    · have h1 := ih hhi hpc
      have hKN : K ≤ N := by
        have := (popCount_le_of_lt_two_pow hhi).1
        omega
      calc x ≤ lastMask N K := h1
      _ ≤ lastMask (N + 1) K := by
          rw [lastMask, lastMask]
          exact Nat.mul_le_mul_left _ (Nat.pow_le_pow_right (by omega) (by omega))
    · have hlo : x - 2 ^ N < 2 ^ N := by
        rw [pow_succ] at hx
        omega
      have hx_eq : x = 2 ^ N * 1 + (x - 2 ^ N) := by omega
      have hpc_x : popCount x = 1 + popCount (x - 2 ^ N) := by
        conv_lhs => rw [hx_eq]
        rw [popCount_mul_pow_add _ _ _ hlo, popCount_one]
      have hKN1 : K ≤ N + 1 := by
        have := (popCount_le_of_lt_two_pow hx).1
        omega
      have hK1 : 1 ≤ K := by omega
      have hpc_lo : popCount (x - 2 ^ N) = K - 1 := by omega
      have h2 := ih hlo hpc_lo
      suffices h : 2 ^ N + lastMask N (K - 1) ≤ lastMask (N + 1) K by omega
      rw [lastMask, lastMask]
      have e1 : N - (K - 1) = N + 1 - K := by omega
      rw [e1]
      have e2 : (2 : Nat) ^ N = 2 ^ (K - 1) * 2 ^ (N + 1 - K) := by
        rw [← pow_add]; congr 1; omega
      have e3 : (2 : Nat) ^ K = 2 * 2 ^ (K - 1) := by
        rw [← pow_succ']; congr 1; omega
      have hp : 1 ≤ (2 : Nat) ^ (K - 1) := Nat.one_le_two_pow
      have e4 : (2 * 2 ^ (K - 1) - 1) * 2 ^ (N + 1 - K) =
          2 ^ (K - 1) * 2 ^ (N + 1 - K) + (2 ^ (K - 1) - 1) * 2 ^ (N + 1 - K) := by
        rw [show 2 * 2 ^ (K - 1) - 1 = 2 ^ (K - 1) + (2 ^ (K - 1) - 1) by omega,
            Nat.add_mul]
      rw [e3, e4, e2]

/-- Popping the least element off a filtered range: the filter restricted to
    values at least m equals m followed by the filter restricted to values at
    least g, when q holds at m, fails strictly between m and g, and m < g. -/
theorem filter_range_pop {q : Nat → Bool} {m g n : Nat} (hmn : m < n)
    (hq : q m = true) (hg : m < g)
    (hmid : ∀ y, m < y → y < g → q y = false) :
    (List.range n).filter (fun x => q x && decide (m ≤ x)) =
      m :: (List.range n).filter (fun x => q x && decide (g ≤ x)) := by
  induction n, hmn using Nat.le_induction with
  | base =>
    rw [List.range_succ, List.filter_append, List.filter_append]
    have h1 : ∀ k, (List.range m).filter (fun x => q x && decide (k + m ≤ x)) = [] := by
      intro k
      rw [List.filter_eq_nil_iff]
      intro a ha
      rw [List.mem_range] at ha
      simp only [Bool.and_eq_true, decide_eq_true_eq]
      omega
    have h2 : (List.range m).filter (fun x => q x && decide (m ≤ x)) = [] := by
      have := h1 0
      simpa using this
    have h3 : (List.range m).filter (fun x => q x && decide (g ≤ x)) = [] := by
      rw [List.filter_eq_nil_iff]
      intro a ha
      rw [List.mem_range] at ha
      simp only [Bool.and_eq_true, decide_eq_true_eq]
      omega
    rw [h2, h3]
    simp [hq, hg, Nat.not_le.mpr hg]
  | succ n hn ih =>
    rw [List.range_succ, List.filter_append, List.filter_append, ih]
    have heq : (List.filter (fun x => q x && decide (m ≤ x)) [n]) =
        (List.filter (fun x => q x && decide (g ≤ x)) [n]) := by
      by_cases hng : g ≤ n
      · simp only [List.filter, Bool.and_eq_true, decide_eq_true_eq]
        have hmn2 : m ≤ n := by omega
        simp [hmn2, hng]
      · have hqn : q n = false := hmid n (by omega) (by omega)
        simp [hqn]
    rw [heq]
    rfl

/-- The run of the enumerator from any popcount-K mask m lists exactly the
    popcount-K values of [m, 2^N) in increasing order, ending at the
    terminal mask. -/
theorem enumFrom_spec {N K : Nat} :
    ∀ d m fuel, 2 ^ N - m ≤ d → m < 2 ^ N → popCount m = K →
      2 ^ N - m ≤ fuel →
      enumFrom N K fuel m =
        (List.range (2 ^ N)).filter
          (fun x => decide (popCount x = K) && decide (m ≤ x)) ∧
      (enumFrom N K fuel m).getLast? = some (lastMask N K) := by
  intro d
  induction d with
  | zero => intro m fuel hd hm; omega
  | succ d ih =>
    intro m fuel hd hm hpc hfuel
    obtain ⟨fuelp, rfl⟩ : ∃ fp, fuel = fp + 1 := ⟨fuel - 1, by omega⟩
    by_cases hlast : m = lastMask N K
    · have henum : enumFrom N K (fuelp + 1) m = [m] := by
        rw [enumFrom, if_pos hlast]
      have hfilter : (List.range (2 ^ N)).filter
          (fun x => decide (popCount x = K) && decide (m ≤ x)) = [m] := by
        have hcongr : ∀ x ∈ List.range (2 ^ N),
            (decide (popCount x = K) && decide (m ≤ x)) = decide (x = m) := by
          intro x hx
          rw [List.mem_range] at hx
          by_cases h1 : popCount x = K
          · by_cases h2 : m ≤ x
            · have hle : x ≤ lastMask N K := le_lastMask hx h1
              have : x = m := by omega
              simp [h1, h2, this, hpc]
            · have : ¬ x = m := by omega
              simp [h1, h2, this]
          · have : ¬ x = m := by rintro rfl; exact h1 hpc
            simp [h1, this]
        rw [List.filter_congr hcongr, List.filter_eq,
            List.count_eq_one_of_mem (List.nodup_range _) (List.mem_range.mpr hm)]
        rfl
      exact ⟨by rw [henum, hfilter], by rw [henum]; simp [hlast]⟩
    · obtain ⟨hgt, hlt2, hpc2, hmin⟩ := gosper_correct hm hpc hlast
      have henum : enumFrom N K (fuelp + 1) m =
          m :: enumFrom N K fuelp (gosperNext N m) := by
        rw [enumFrom, if_neg hlast]
      obtain ⟨ih1, ih2⟩ := ih (gosperNext N m) fuelp (by omega) hlt2 hpc2 (by omega)
      have hpop := filter_range_pop (q := fun x => decide (popCount x = K))
        (n := 2 ^ N) hm (by simp [hpc]) hgt
        (fun y hy1 hy2 => by simp [hmin y hy1 hy2])
      constructor
      · rw [henum, ih1, hpop]
      · rw [henum]
        have hne : enumFrom N K fuelp (gosperNext N m) ≠ [] := by
          intro h0
          rw [h0] at ih2
          exact Option.noConfusion ih2
        obtain ⟨y, ys, hys⟩ : ∃ y ys, enumFrom N K fuelp (gosperNext N m) = y :: ys := by
          cases hE : enumFrom N K fuelp (gosperNext N m) with
          | nil => exact absurd hE hne
          | cons y ys => exact ⟨y, ys, rfl⟩
        rw [hys]
        rw [hys] at ih2
        rw [List.getLast?_cons_cons]
        exact ih2

/-- The full enumerator trajectory equals the sorted list of all popcount-K
    N-bit values. -/
theorem enumMasks_eq_maskList {N K : Nat} (hKN : K ≤ N) :
    enumMasks N K = maskList N K := by
  have hp : 1 ≤ (2 : Nat) ^ K := Nat.one_le_two_pow
  have hinit_lt : 2 ^ K - 1 < 2 ^ N := by
    have : (2 : Nat) ^ K ≤ 2 ^ N := Nat.pow_le_pow_right (by omega) hKN
    omega
  have hinit : initMask N K = 2 ^ K - 1 := Nat.mod_eq_of_lt hinit_lt
  have hpc_init : popCount (initMask N K) = K := by
    rw [hinit, popCount_two_pow_sub_one]
  obtain ⟨h1, _⟩ := enumFrom_spec (N := N) (K := K) (2 ^ N) (initMask N K) (2 ^ N)
    (by omega) (by rw [hinit]; omega) hpc_init (by omega)
  rw [enumMasks, h1, maskList]
  apply List.filter_congr
  intro x hx
  by_cases hpcx : popCount x = K
  · have := ge_initMask hpcx
    rw [hinit]
    simp [hpcx, this]
  · simp [hpcx]

/-- The last visited mask is the terminal mask. -/
theorem enumMasks_getLast {N K : Nat} (hKN : K ≤ N) :
    (enumMasks N K).getLast? = some (lastMask N K) := by
  have hp : 1 ≤ (2 : Nat) ^ K := Nat.one_le_two_pow
  have hinit_lt : 2 ^ K - 1 < 2 ^ N := by
    have : (2 : Nat) ^ K ≤ 2 ^ N := Nat.pow_le_pow_right (by omega) hKN
    omega
  have hinit : initMask N K = 2 ^ K - 1 := Nat.mod_eq_of_lt hinit_lt
  have hpc_init : popCount (initMask N K) = K := by
    rw [hinit, popCount_two_pow_sub_one]
  obtain ⟨_, h2⟩ := enumFrom_spec (N := N) (K := K) (2 ^ N) (initMask N K) (2 ^ N)
    (by omega) (by rw [hinit]; omega) hpc_init (by omega)
  exact h2

/-! ## Combinations and masks: the bijection between K-subsets and
    popcount-K values -/

theorem combos_mem : ∀ (k : Nat) (l c : List Nat),
    c ∈ combos k l ↔ c.Sublist l ∧ c.length = k := by
  intro k
  induction k using Nat.strong_induction_on with
  | _ k ihk =>
    intro l
    induction l with
    | nil =>
      intro c
      cases k with
      | zero => simp [combos, List.sublist_nil, List.length_eq_zero]
      | succ k =>
        simp only [combos, List.not_mem_nil, false_iff, not_and, List.sublist_nil]
        rintro rfl
        simp
    | cons x xs ihl =>
      intro c
      cases k with
      | zero =>
        simp only [combos, List.mem_singleton, List.length_eq_zero]
        constructor
        · rintro rfl; exact ⟨List.nil_sublist _, rfl⟩
        · rintro ⟨-, rfl⟩; rfl
      | succ k =>
        simp only [combos, List.mem_append, List.mem_map]
        constructor
        · rintro (⟨cp, hcp, rfl⟩ | hc)
          · obtain ⟨hsub, hlen⟩ := (ihk k (by omega) xs cp).mp hcp
            exact ⟨List.cons_sublist_cons.mpr hsub, by simp [hlen]⟩
          · obtain ⟨hsub, hlen⟩ := (ihl c).mp hc
            exact ⟨hsub.trans (List.sublist_cons_self x xs), hlen⟩
        · rintro ⟨hsub, hlen⟩
          rcases List.sublist_cons_iff.mp hsub with hsub2 | ⟨r, rfl, hr⟩
          · exact Or.inr ((ihl c).mpr ⟨hsub2, hlen⟩)
          · refine Or.inl ⟨r, (ihk k (by omega) xs r).mpr ⟨hr, ?_⟩, rfl⟩
            simpa using hlen

theorem combos_nodup : ∀ (k : Nat) (l : List Nat), l.Nodup → (combos k l).Nodup := by
  intro k
  induction k using Nat.strong_induction_on with
  | _ k ihk =>
    intro l
    induction l with
    | nil =>
      intro _
      cases k with
      | zero => simp [combos]
      | succ k => simp [combos]
    | cons x xs ihl =>
      intro hnd
      have hx : x ∉ xs := by
        rw [List.nodup_cons] at hnd
        exact hnd.1
      have hxs : xs.Nodup := by
        rw [List.nodup_cons] at hnd
        exact hnd.2
      cases k with
      | zero => simp [combos]
      | succ k =>
        rw [combos]
        apply List.Nodup.append
        · apply List.Nodup.map_on
          · intro a _ b _ hab
            simpa using hab
          · exact ihk k (by omega) xs hxs
        · exact ihl hxs
        · intro c hc1 hc2
          obtain ⟨cp, _, rfl⟩ := List.mem_map.mp hc1
          obtain ⟨hsub, _⟩ := (combos_mem (k + 1) xs (x :: cp)).mp hc2
          exact hx (hsub.mem (by simp))

theorem testBit_maskOf : ∀ (c : List Nat) (i : Nat),
    (maskOf c).testBit i = decide (i ∈ c) := by
  intro c
  induction c with
  | nil => intro i; simp [maskOf, Nat.zero_testBit]
  | cons x xs ih =>
    intro i
    rw [maskOf]
    show ((2 ^ x : Nat) ||| maskOf xs).testBit i = _
    rw [Nat.testBit_lor, Nat.testBit_two_pow, ih]
    by_cases h1 : x = i <;> by_cases h2 : i ∈ xs <;>
      simp [h1, h2, List.mem_cons, eq_comm]

theorem maskOf_lt {N : Nat} : ∀ c : List Nat, (∀ j ∈ c, j < N) → maskOf c < 2 ^ N := by
  intro c
  induction c with
  | nil =>
    intro _
    exact Nat.pos_pow_of_pos _ (by omega)
  | cons x xs ih =>
    intro h
    rw [maskOf]
    show (2 ^ x : Nat) ||| maskOf xs < 2 ^ N
    exact Nat.or_lt_two_pow
      (Nat.pow_lt_pow_right (by omega) (h x (by simp)))
      (ih (fun j hj => h j (by simp [hj])))

theorem popCount_eq_filter_length :
    ∀ N m, m < 2 ^ N →
      popCount m = ((List.range N).filter (fun i => m.testBit i)).length := by
  intro N
  induction N with
  | zero =>
    intro m hm
    interval_cases m
    simp [popCount_zero]
  | succ N ih =>
    intro m hm
    have hlo : m % 2 ^ N < 2 ^ N := Nat.mod_lt _ (Nat.pos_pow_of_pos _ (by omega))
    have hhi : m / 2 ^ N < 2 := by
      rw [Nat.div_lt_iff_lt_mul (Nat.pos_pow_of_pos _ (by omega))]
      rw [pow_succ] at hm
      omega
    have hm_eq : m = 2 ^ N * (m / 2 ^ N) + m % 2 ^ N := (Nat.div_add_mod m (2 ^ N)).symm
    have hpc : popCount m = popCount (m / 2 ^ N) + popCount (m % 2 ^ N) := by
      conv_lhs => rw [hm_eq]
      rw [popCount_mul_pow_add _ _ _ hlo]
    rw [List.range_succ, List.filter_append, List.length_append]
    have hfilter_eq : (List.range N).filter (fun i => m.testBit i) =
        (List.range N).filter (fun i => (m % 2 ^ N).testBit i) := by
      apply List.filter_congr
      intro i hi
      rw [List.mem_range] at hi
      rw [Nat.testBit_mod_two_pow]
      simp [hi]
    have htop : m.testBit N = decide (m / 2 ^ N = 1) := by
      conv_lhs => rw [hm_eq]
      rw [Nat.testBit_mul_pow_two_add _ hlo]
      simp only [lt_irrefl, if_false, Nat.sub_self]
      interval_cases h : m / 2 ^ N <;> simp
    rw [hfilter_eq, ← ih _ hlo, hpc]
    simp only [List.filter, htop]
    interval_cases h : m / 2 ^ N
    · simp [popCount_zero]
    · simp [popCount_one]
      omega

theorem sorted_filter_mem_eq {N : Nat} (c : List Nat)
    (hsort : List.Pairwise (· < ·) c) (hlt : ∀ j ∈ c, j < N) :
    (List.range N).filter (fun i => decide (i ∈ c)) = c := by
  haveI : IsAntisymm Nat (· < ·) :=
    ⟨fun a b h1 h2 => absurd h1 (Nat.lt_asymm h2)⟩
  apply List.eq_of_perm_of_sorted (r := (· < ·))
  · rw [List.perm_ext_iff_of_nodup
      (((List.nodup_range N).filter _))
      (hsort.imp (fun h => Nat.ne_of_lt h))]
    intro a
    rw [List.mem_filter, List.mem_range]
    constructor
    · rintro ⟨-, h⟩
      simpa using h
    · intro h
      exact ⟨hlt a h, by simpa using h⟩
  · exact List.Pairwise.filter _ (List.pairwise_lt_range N)
  · exact hsort

theorem maskOf_filter_testBit {N m : Nat} (hm : m < 2 ^ N) :
    maskOf ((List.range N).filter (fun i => m.testBit i)) = m := by
  apply Nat.eq_of_testBit_eq
  intro i
  rw [testBit_maskOf]
  by_cases hi : i < N
  · by_cases hb : m.testBit i = true
    · simp [List.mem_filter, List.mem_range, hi, hb]
    · simp only [Bool.not_eq_true] at hb
      simp [List.mem_filter, List.mem_range, hb]
  · have hb : m.testBit i = false :=
      Nat.testBit_eq_false_of_lt
        (lt_of_lt_of_le hm (Nat.pow_le_pow_right (by omega) (by omega)))
    simp [List.mem_filter, List.mem_range, hi, hb]

theorem combos_sorted {N : Nat} {c : List Nat} (h : c.Sublist (List.range N)) :
    List.Pairwise (· < ·) c :=
  List.Pairwise.sublist h (List.pairwise_lt_range N)

theorem combos_bounded {N : Nat} {c : List Nat} (h : c.Sublist (List.range N)) :
    ∀ j ∈ c, j < N := by
  intro j hj
  have := h.mem hj
  rwa [List.mem_range] at this

theorem popCount_maskOf {N : Nat} {c : List Nat}
    (hsort : List.Pairwise (· < ·) c) (hlt : ∀ j ∈ c, j < N) :
    popCount (maskOf c) = c.length := by
  rw [popCount_eq_filter_length N _ (maskOf_lt c hlt)]
  have hcongr : (List.range N).filter (fun i => (maskOf c).testBit i) =
      (List.range N).filter (fun i => decide (i ∈ c)) :=
    List.filter_congr (fun i _ => testBit_maskOf c i)
  rw [hcongr, sorted_filter_mem_eq c hsort hlt]

/-- The sorted mask list is in bijection (by maskOf) with the K-element
    combinations of positions. -/
theorem maskList_perm (N K : Nat) :
    (maskList N K).Perm ((combos K (List.range N)).map maskOf) := by
  have hnd2 : ((combos K (List.range N)).map maskOf).Nodup := by
    apply List.Nodup.map_on
    · intro a ha b hb hab
      obtain ⟨hsa, -⟩ := (combos_mem _ _ _).mp ha
      obtain ⟨hsb, -⟩ := (combos_mem _ _ _).mp hb
      have ha2 := sorted_filter_mem_eq a (combos_sorted hsa) (combos_bounded hsa)
      have hb2 := sorted_filter_mem_eq b (combos_sorted hsb) (combos_bounded hsb)
      have hfa : (List.range N).filter (fun i => (maskOf a).testBit i) = a := by
        rw [List.filter_congr (fun i _ => testBit_maskOf a i), ha2]
      have hfb : (List.range N).filter (fun i => (maskOf b).testBit i) = b := by
        rw [List.filter_congr (fun i _ => testBit_maskOf b i), hb2]
      rw [← hfa, ← hfb, hab]
    · exact combos_nodup K _ (List.nodup_range N)
  rw [maskList, List.perm_ext_iff_of_nodup (List.Nodup.filter _ (List.nodup_range _)) hnd2]
  intro m
  rw [List.mem_filter, List.mem_range, List.mem_map]
  constructor
  · rintro ⟨hm, hpc⟩
    simp only [decide_eq_true_eq] at hpc
    refine ⟨(List.range N).filter (fun i => m.testBit i), ?_, maskOf_filter_testBit hm⟩
    rw [combos_mem]
    refine ⟨List.filter_sublist _, ?_⟩
    rw [← popCount_eq_filter_length N m hm, hpc]
  · rintro ⟨c, hc, rfl⟩
    obtain ⟨hsub, hlen⟩ := (combos_mem _ _ _).mp hc
    refine ⟨maskOf_lt c (combos_bounded hsub), ?_⟩
    simp only [decide_eq_true_eq]
    rw [popCount_maskOf (combos_sorted hsub) (combos_bounded hsub), hlen]

theorem combos_length (K N : Nat) :
    (combos K (List.range N)).length = Nat.choose N K := by
  have hperm : (combos K (List.range N)).Perm (List.sublistsLen K (List.range N)) := by
    rw [List.perm_ext_iff_of_nodup (combos_nodup K _ (List.nodup_range N))
      (List.nodup_sublistsLen K (List.nodup_range N))]
    intro c
    rw [combos_mem, List.mem_sublistsLen]
  rw [hperm.length_eq, List.length_sublistsLen, List.length_range]

theorem maskList_length (N K : Nat) :
    (maskList N K).length = Nat.choose N K := by
  rw [(maskList_perm N K).length_eq, List.length_map, combos_length]

theorem enumMasks_head (N K : Nat) :
    (enumMasks N K).head? = some (initMask N K) := by
  rw [enumMasks]
  obtain ⟨f, hf⟩ : ∃ f, 2 ^ N = f + 1 := by
    have h1 : (1 : Nat) ≤ 2 ^ N := Nat.one_le_two_pow
    exact ⟨2 ^ N - 1, by omega⟩
  rw [hf, enumFrom]
  split <;> rfl

/-! ## Claim C4: exhaustive, sorted, complete enumeration -/

/-- Claim C4: one run's enumerator visits exactly C(N, K) distinct masks,
    each of popcount K, each exactly once, in strictly increasing order,
    starting at the lowest K bits and ending at the highest K bits. -/
theorem C4_enumeration {N K : Nat} (h1 : 1 ≤ N) (h2 : N ≤ 32)
    (h3 : K = 2 ∨ K = 3) (h4 : K ≤ N) :
    (enumMasks N K).length = Nat.choose N K ∧
    List.Chain' (· < ·) (enumMasks N K) ∧
    (enumMasks N K).Nodup ∧
    (∀ m ∈ enumMasks N K, m < 2 ^ N ∧ popCount m = K) ∧
    (enumMasks N K).head? = some (2 ^ K - 1) ∧
    (enumMasks N K).getLast? = some ((2 ^ K - 1) * 2 ^ (N - K)) := by
  have heq := enumMasks_eq_maskList h4
  have hpair : List.Pairwise (· < ·) (maskList N K) :=
    List.Pairwise.filter _ (List.pairwise_lt_range _)
  have hp : 1 ≤ (2 : Nat) ^ K := Nat.one_le_two_pow
  have hinit_lt : 2 ^ K - 1 < 2 ^ N := by
    have := Nat.pow_le_pow_right (show 1 ≤ 2 by omega) h4
    omega
  refine ⟨by rw [heq, maskList_length], ?_, ?_, ?_, ?_, ?_⟩
  · rw [heq, List.chain'_iff_pairwise]
    exact hpair
  · exact heq ▸ (hpair.imp (fun h => Nat.ne_of_lt h))
  · intro m hm
    rw [heq, maskList, List.mem_filter, List.mem_range] at hm
    exact ⟨hm.1, by simpa using hm.2⟩
  · rw [enumMasks_head, initMask, Nat.mod_eq_of_lt hinit_lt]
  · exact enumMasks_getLast h4

/-- Witness for C4 at N = 4, K = 2. -/
theorem C4_enumeration_witness :
    (enumMasks 4 2).length = Nat.choose 4 2 ∧
    (enumMasks 4 2).head? = some (2 ^ 2 - 1) ∧
    (enumMasks 4 2).getLast? = some ((2 ^ 2 - 1) * 2 ^ (4 - 2)) :=
  ⟨(@C4_enumeration 4 2 (by decide) (by decide) (Or.inl rfl) (by decide)).1,
   (@C4_enumeration 4 2 (by decide) (by decide) (Or.inl rfl) (by decide)).2.2.2.2.1,
   (@C4_enumeration 4 2 (by decide) (by decide) (Or.inl rfl) (by decide)).2.2.2.2.2⟩

/-! ## One event of the sweep: DO_ONE_RESULT, HIST_READ, HIST_WRITE, ADVANCE -/

theorem iterC_add (N K CW data : Nat) (inp : Inp) (a b : Nat) (s : St) :
    iterC N K CW data inp (a + b) s = iterC N K CW data inp b (iterC N K CW data inp a s) := by
  induction a generalizing s with
  | zero => rw [Nat.zero_add]; rfl
  | succ a ih =>
    have h1 : a + 1 + b = (a + b) + 1 := by omega
    rw [h1]
    show iterC N K CW data inp (a + b) (step N K CW data inp s) = _
    rw [ih (step N K CW data inp s)]
    rfl

theorem memW_of_false {s : St} (hw : s.wr_en = false) : memW s = s.mem := by
  simp [memW, hw]

theorem event_steps {N K CW data : Nat} {inp : Inp} {s : St}
    (hf : s.fsm = .doOneResult) (hw : s.wr_en = false)
    (hu : s.use_internal_read = false) :
    iterC N K CW data inp 4 s =
      { s with
        mem := bumpMod CW s.mem (finalRes K s.op1 s.op2 s.sel0 s.sel1 s.sel2),
        rd_data := memGet
          (bumpMod CW s.mem (finalRes K s.op1 s.op2 s.sel0 s.sel1 s.sel2))
          (finalRes K s.op1 s.op2 s.sel0 s.sel1 s.sel2),
        bin_val := finalRes K s.op1 s.op2 s.sel0 s.sel1 s.sel2,
        int_rd_addr := finalRes K s.op1 s.op2 s.sel0 s.sel1 s.sel2,
        wr_addr := finalRes K s.op1 s.op2 s.sel0 s.sel1 s.sel2,
        wr_data := (memGet s.mem (finalRes K s.op1 s.op2 s.sel0 s.sel1 s.sel2) + 1) % 2 ^ CW,
        wr_en := false, use_internal_read := false,
        op1 := (advRes K s.op1 s.op2).1, op2 := (advRes K s.op1 s.op2).2.1,
        fsm := (advRes K s.op1 s.op2).2.2 } := by
  have hmw : memW s = s.mem := memW_of_false hw
  set F := finalRes K s.op1 s.op2 s.sel0 s.sel1 s.sel2 with hF
  have e1 : step N K CW data inp s =
      { s with rd_data := memGet s.mem (rdAddrEff inp s), bin_val := F,
               use_internal_read := true, int_rd_addr := F,
               fsm := Fsm.histRead } := by
    rw [step_eq_doOne hf, hmw]
  have e2 : step N K CW data inp
      { s with rd_data := memGet s.mem (rdAddrEff inp s), bin_val := F,
               use_internal_read := true, int_rd_addr := F,
               fsm := Fsm.histRead } =
      { s with rd_data := memGet s.mem F, bin_val := F,
               use_internal_read := true, int_rd_addr := F,
               fsm := Fsm.histWrite } := by
    rw [step_eq_histRead rfl]
    simp [memW, rdAddrEff, hw]
  have e3 : step N K CW data inp
      { s with rd_data := memGet s.mem F, bin_val := F,
               use_internal_read := true, int_rd_addr := F,
               fsm := Fsm.histWrite } =
      { s with rd_data := memGet s.mem F, bin_val := F,
               use_internal_read := true, int_rd_addr := F,
               wr_en := true, wr_addr := F,
               wr_data := (memGet s.mem F + 1) % 2 ^ CW,
               fsm := Fsm.advance } := by
    rw [step_eq_histWrite rfl]
    simp [memW, rdAddrEff, hw]
  have e4 : step N K CW data inp
      { s with rd_data := memGet s.mem F, bin_val := F,
               use_internal_read := true, int_rd_addr := F,
               wr_en := true, wr_addr := F,
               wr_data := (memGet s.mem F + 1) % 2 ^ CW,
               fsm := Fsm.advance } =
      { s with
        mem := bumpMod CW s.mem F,
        rd_data := memGet (bumpMod CW s.mem F) F,
        bin_val := F, int_rd_addr := F, wr_addr := F,
        wr_data := (memGet s.mem F + 1) % 2 ^ CW,
        wr_en := false, use_internal_read := false,
        op1 := (advRes K s.op1 s.op2).1, op2 := (advRes K s.op1 s.op2).2.1,
        fsm := (advRes K s.op1 s.op2).2.2 } := by
    simp only [step]
    by_cases hK : K = 2
    · subst hK
      by_cases ho1 : s.op1 = 9 <;>
        simp [memW, rdAddrEff, memSet, bumpMod, advRes, ho1]
    · by_cases ho2 : s.op2 = 9
      · by_cases ho1 : s.op1 = 9 <;>
          simp [memW, rdAddrEff, memSet, bumpMod, advRes, hK, ho1, ho2]
      · simp [memW, rdAddrEff, memSet, bumpMod, advRes, hK, ho2]
  show iterC N K CW data inp 4 s = _
  have hchain : iterC N K CW data inp 4 s =
      step N K CW data inp (step N K CW data inp
        (step N K CW data inp (step N K CW data inp s))) := by
    simp only [iterC]
  rw [hchain, e1, e2, e3, e4]

/-! ## The operator sweep over one subset -/


theorem sweep {N K CW data : Nat} {inp : Inp} (hK23 : K = 2 ∨ K = 3) :
    ∀ rem (s : St), s.fsm = .doOneResult → s.wr_en = false →
      s.use_internal_read = false → s.op1 ≤ 9 → s.op2 ≤ 9 →
      rem = remEv K s.op1 s.op2 →
      (iterC N K CW data inp (4 * rem) s).fsm = .nextSubset ∧
      (iterC N K CW data inp (4 * rem) s).wr_en = false ∧
      (iterC N K CW data inp (4 * rem) s).use_internal_read = false ∧
      (iterC N K CW data inp (4 * rem) s).mem =
        ((opsFrom K rem s.op1 s.op2).map
          (fun p => finalRes K p.1 p.2 s.sel0 s.sel1 s.sel2)).foldl
          (bumpMod CW) s.mem ∧
      (iterC N K CW data inp (4 * rem) s).mask = s.mask ∧
      (iterC N K CW data inp (4 * rem) s).busy = s.busy ∧
      (iterC N K CW data inp (4 * rem) s).done = s.done ∧
      (iterC N K CW data inp (4 * rem) s).sel0 = s.sel0 ∧
      (iterC N K CW data inp (4 * rem) s).sel1 = s.sel1 ∧
      (iterC N K CW data inp (4 * rem) s).sel2 = s.sel2 := by
  intro rem
  induction rem with
  | zero =>
    intro s hf hw hu ho1 ho2 hrem
    exfalso
    rcases hK23 with rfl | rfl <;> simp [remEv] at hrem <;> omega
  | succ r ih =>
    intro s hf hw hu ho1 ho2 hrem
    have hev := @event_steps N K CW data inp s hf hw hu
    have hterm : (advRes K s.op1 s.op2).2.2 = Fsm.nextSubset ∨
        (advRes K s.op1 s.op2).2.2 = Fsm.doOneResult := by
      rcases hK23 with rfl | rfl <;> rw [advRes] <;>
        split <;> (try split) <;> (try split) <;> simp
    rw [show 4 * (r + 1) = 4 + 4 * r by ring, iterC_add]
    by_cases hstop : (advRes K s.op1 s.op2).2.2 = Fsm.nextSubset
    · -- last event of the sweep
      have hr0 : r = 0 := by
        rcases hK23 with rfl | rfl
        · by_cases h9 : s.op1 = 9
          · simp [remEv] at hrem; omega
          · rw [advRes] at hstop; simp [h9] at hstop
        · by_cases h92 : s.op2 = 9
          · by_cases h91 : s.op1 = 9
            · simp [remEv] at hrem; omega
            · rw [advRes] at hstop; simp [h92, h91] at hstop
          · rw [advRes] at hstop; simp [h92] at hstop
      subst hr0
      have hops : opsFrom K 1 s.op1 s.op2 = [(s.op1, s.op2)] := by
        rw [opsFrom]
        rcases hadv : advRes K s.op1 s.op2 with ⟨a1, a2, af⟩
        rw [hadv] at hstop
        simp at hstop
        subst hstop
        rfl
      rw [hops, hev]
      simp [iterC, hstop]
    · have hcont : (advRes K s.op1 s.op2).2.2 = Fsm.doOneResult := by tauto
      have hops : opsFrom K (r + 1) s.op1 s.op2 =
          (s.op1, s.op2) ::
            opsFrom K r (advRes K s.op1 s.op2).1 (advRes K s.op1 s.op2).2.1 := by
        rw [opsFrom]
        rcases hadv : advRes K s.op1 s.op2 with ⟨a1, a2, af⟩
        rw [hadv] at hcont
        simp at hcont
        subst hcont
        rfl
      have hbound : (advRes K s.op1 s.op2).1 ≤ 9 ∧ (advRes K s.op1 s.op2).2.1 ≤ 9 ∧
          r = remEv K (advRes K s.op1 s.op2).1 (advRes K s.op1 s.op2).2.1 := by
        rcases hK23 with rfl | rfl
        · by_cases h9 : s.op1 = 9
          · exfalso; rw [advRes] at hcont; simp [h9] at hcont
          · have hm : (s.op1 + 1) % 16 = s.op1 + 1 := Nat.mod_eq_of_lt (by omega)
            simp [remEv] at hrem
            refine ⟨?_, ?_, ?_⟩ <;> simp [advRes, remEv, h9, hm] <;> omega
        · by_cases h92 : s.op2 = 9
          · by_cases h91 : s.op1 = 9
            · exfalso; rw [advRes] at hcont; simp [h92, h91] at hcont
            · have hm : (s.op1 + 1) % 16 = s.op1 + 1 := Nat.mod_eq_of_lt (by omega)
              simp [remEv] at hrem
              refine ⟨?_, ?_, ?_⟩ <;> simp [advRes, remEv, h92, h91, hm] <;> omega
          · have hm : (s.op2 + 1) % 16 = s.op2 + 1 := Nat.mod_eq_of_lt (by omega)
            simp [remEv] at hrem
            refine ⟨?_, ?_, ?_⟩ <;> simp [advRes, remEv, h92, hm] <;> omega
      obtain ⟨q1, q2, q3, q4, q5, q6, q7, q8, q9, q10⟩ :=
        ih (iterC N K CW data inp 4 s)
          (by simp [hev, hcont])
          (by simp [hev])
          (by simp [hev])
          (by rw [hev]; exact hbound.1)
          (by rw [hev]; exact hbound.2.1)
          (by rw [hev]; exact hbound.2.2)
      refine ⟨q1, q2, q3, ?_, ?_, ?_, ?_, ?_, ?_, ?_⟩
      · rw [hops, q4, List.map_cons, List.foldl_cons]
        simp [hev]
      · rw [q5]; simp [hev]
      · rw [q6]; simp [hev]
      · rw [q7]; simp [hev]
      · rw [q8]; simp [hev]
      · rw [q9]; simp [hev]
      · rw [q10]; simp [hev]

/-! ## The scan phase of one subset -/

theorem iterC_one {N K CW data : Nat} {inp : Inp} {s : St} :
    iterC N K CW data inp 1 s = step N K CW data inp s := rfl

theorem iterC_succ {N K CW data d : Nat} {inp : Inp} {s : St} :
    iterC N K CW data inp (d + 1) s =
      iterC N K CW data inp d (step N K CW data inp s) := rfl

theorem step_eq_scan_take {N K CW data : Nat} {inp : Inp} {s : St}
    (hf : s.fsm = .scanSelect) (hi : s.scan_i < N)
    (hb : s.mask.testBit s.scan_i = true) :
    step N K CW data inp s =
      { s with mem := memW s, rd_data := memGet (memW s) (rdAddrEff inp s),
               sel0 := if s.sel_count = 0 then nibble data s.scan_i else s.sel0,
               sel1 := if s.sel_count = 0 then s.sel1
                       else if s.sel_count = 1 then nibble data s.scan_i
                       else s.sel1,
               sel2 := if s.sel_count = 0 ∨ s.sel_count = 1 then s.sel2
                       else nibble data s.scan_i,
               sel_count := (s.sel_count + 1) % 4,
               scan_i := s.scan_i + 1 } := by
  simp only [step, hf, if_pos hi, hb, if_true]
  by_cases h0 : s.sel_count = 0
  · simp [h0]
  · by_cases h1 : s.sel_count = 1 <;> simp [h0, h1]

theorem scan_steps {N K CW data : Nat} {inp : Inp} :
    ∀ d (s : St), s.fsm = .scanSelect → s.wr_en = false → s.scan_i + d = N →
      (iterC N K CW data inp d s).fsm = .scanSelect ∧
      (iterC N K CW data inp d s).wr_en = false ∧
      (iterC N K CW data inp d s).use_internal_read = s.use_internal_read ∧
      (iterC N K CW data inp d s).mem = s.mem ∧
      (iterC N K CW data inp d s).mask = s.mask ∧
      (iterC N K CW data inp d s).busy = s.busy ∧
      (iterC N K CW data inp d s).done = s.done ∧
      (iterC N K CW data inp d s).scan_i = N ∧
      (iterC N K CW data inp d s).op1 = s.op1 ∧
      (iterC N K CW data inp d s).op2 = s.op2 ∧
      ((iterC N K CW data inp d s).sel_count, (iterC N K CW data inp d s).sel0,
        (iterC N K CW data inp d s).sel1, (iterC N K CW data inp d s).sel2) =
        scanRun data (s.sel_count, s.sel0, s.sel1, s.sel2)
          ((List.range' s.scan_i d).filter (fun i => s.mask.testBit i)) := by
  intro d
  induction d with
  | zero =>
    intro s hf hw hsum
    refine ⟨hf, hw, rfl, rfl, rfl, rfl, rfl, ?_, rfl, rfl, ?_⟩
    · show s.scan_i = N
      omega
    · show (s.sel_count, s.sel0, s.sel1, s.sel2) = _
      simp [scanRun]
  | succ d ih =>
    intro s hf hw hsum
    have hi : s.scan_i < N := by omega
    rw [iterC_succ]
    by_cases hb : s.mask.testBit s.scan_i = true
    · obtain ⟨q1, q2, q3, q4, q5, q6, q7, q8, q9, q10, q11⟩ :=
        ih (step N K CW data inp s)
          (by rw [step_eq_scan_take hf hi hb]; exact hf)
          (by rw [step_eq_scan_take hf hi hb]; exact hw)
          (by rw [step_eq_scan_take hf hi hb]; show s.scan_i + 1 + d = N; omega)
      refine ⟨q1, q2, ?_, ?_, ?_, ?_, ?_, q8, ?_, ?_, ?_⟩
      · rw [q3, step_eq_scan_take hf hi hb]
      · rw [q4, step_eq_scan_take hf hi hb]; exact memW_of_false hw
      · rw [q5, step_eq_scan_take hf hi hb]
      · rw [q6, step_eq_scan_take hf hi hb]
      · rw [q7, step_eq_scan_take hf hi hb]
      · rw [q9, step_eq_scan_take hf hi hb]
      · rw [q10, step_eq_scan_take hf hi hb]
      · rw [q11, step_eq_scan_take hf hi hb, List.range'_succ, List.filter_cons]
        simp [hb, scanRun, scanUpd]
    · have hb' : s.mask.testBit s.scan_i = false := by simpa using hb
      obtain ⟨q1, q2, q3, q4, q5, q6, q7, q8, q9, q10, q11⟩ :=
        ih (step N K CW data inp s)
          (by rw [step_eq_scan_skip hf hi hb']; exact hf)
          (by rw [step_eq_scan_skip hf hi hb']; exact hw)
          (by rw [step_eq_scan_skip hf hi hb']; show s.scan_i + 1 + d = N; omega)
      refine ⟨q1, q2, ?_, ?_, ?_, ?_, ?_, q8, ?_, ?_, ?_⟩
      · rw [q3, step_eq_scan_skip hf hi hb']
      · rw [q4, step_eq_scan_skip hf hi hb']; exact memW_of_false hw
      · rw [q5, step_eq_scan_skip hf hi hb']
      · rw [q6, step_eq_scan_skip hf hi hb']
      · rw [q7, step_eq_scan_skip hf hi hb']
      · rw [q9, step_eq_scan_skip hf hi hb']
      · rw [q10, step_eq_scan_skip hf hi hb']
      · rw [q11, step_eq_scan_skip hf hi hb', List.range'_succ, List.filter_cons]
        simp [hb', scanRun, scanUpd]

theorem scan_phase {N K CW data : Nat} {inp : Inp} {s : St}
    (hf : s.fsm = .scanSelect) (hw : s.wr_en = false) (hi : s.scan_i = 0) :
    (iterC N K CW data inp (N + 1) s).fsm = .doOneResult ∧
    (iterC N K CW data inp (N + 1) s).wr_en = false ∧
    (iterC N K CW data inp (N + 1) s).use_internal_read = s.use_internal_read ∧
    (iterC N K CW data inp (N + 1) s).mem = s.mem ∧
    (iterC N K CW data inp (N + 1) s).mask = s.mask ∧
    (iterC N K CW data inp (N + 1) s).busy = s.busy ∧
    (iterC N K CW data inp (N + 1) s).done = s.done ∧
    (iterC N K CW data inp (N + 1) s).op1 = 0 ∧
    (iterC N K CW data inp (N + 1) s).op2 = 0 ∧
    ((iterC N K CW data inp (N + 1) s).sel_count,
      (iterC N K CW data inp (N + 1) s).sel0,
      (iterC N K CW data inp (N + 1) s).sel1,
      (iterC N K CW data inp (N + 1) s).sel2) =
      scanRun data (s.sel_count, s.sel0, s.sel1, s.sel2)
        ((List.range N).filter (fun i => s.mask.testBit i)) := by
  obtain ⟨q1, q2, q3, q4, q5, q6, q7, q8, q9, q10, q11⟩ :=
    @scan_steps N K CW data inp N s hf hw (by omega)
  have hex : ¬ (iterC N K CW data inp N s).scan_i < N := by rw [q8]; omega
  rw [iterC_add, iterC_one, step_eq_scan_exit q1 hex]
  rw [hi] at q11
  rw [← List.range_eq_range'] at q11
  exact ⟨rfl, q2, q3, memW_of_false q2 ▸ q4, q5, q6, q7, rfl, rfl, q11⟩

/-! ## One full subset: scan, operator sweep, histogram contribution -/

theorem finalRes_two (o1 o2 a b c : Nat) : finalRes 2 o1 o2 a b c = apply_op o1 a b := by
  simp [finalRes]

theorem opsFrom_seq_two : opsFrom 2 (remEv 2 0 0) 0 0 = opSeq 2 := by decide

theorem opsFrom_seq_three : opsFrom 3 (remEv 3 0 0) 0 0 = opSeq 3 := by decide

theorem scanRun_two (data x0 x1 x2 i j : Nat) :
    scanRun data (0, x0, x1, x2) [i, j] = (2, nibble data i, nibble data j, x2) := by
  simp [scanRun, scanUpd]

theorem scanRun_three (data x0 x1 x2 i j k : Nat) :
    scanRun data (0, x0, x1, x2) [i, j, k] =
      (3, nibble data i, nibble data j, nibble data k) := by
  simp [scanRun, scanUpd]

theorem subset_phase {N K CW data : Nat} {inp : Inp} {s : St}
    (hK23 : K = 2 ∨ K = 3)
    (hf : s.fsm = .scanSelect) (hw : s.wr_en = false)
    (hu : s.use_internal_read = false) (hsi : s.scan_i = 0)
    (hsc : s.sel_count = 0) (hml : s.mask < 2 ^ N) (hpc : popCount s.mask = K) :
    (iterC N K CW data inp (N + 1 + 4 * remEv K 0 0) s).fsm = .nextSubset ∧
    (iterC N K CW data inp (N + 1 + 4 * remEv K 0 0) s).wr_en = false ∧
    (iterC N K CW data inp (N + 1 + 4 * remEv K 0 0) s).use_internal_read = false ∧
    (iterC N K CW data inp (N + 1 + 4 * remEv K 0 0) s).mem =
      subsetMem N K CW data s.mem s.mask ∧
    (iterC N K CW data inp (N + 1 + 4 * remEv K 0 0) s).mask = s.mask ∧
    (iterC N K CW data inp (N + 1 + 4 * remEv K 0 0) s).busy = s.busy ∧
    (iterC N K CW data inp (N + 1 + 4 * remEv K 0 0) s).done = s.done := by
  obtain ⟨a1, a2, a3, a4, a5, a6, a7, a8, a9, a10⟩ :=
    @scan_phase N K CW data inp s hf hw hsi
  rw [iterC_add]
  obtain ⟨b1, b2, b3, b4, b5, b6, b7, b8, b9, b10⟩ :=
    @sweep N K CW data inp hK23 (remEv K 0 0)
      (iterC N K CW data inp (N + 1) s) a1 a2 (by rw [a3, hu])
      (by rw [a8]; omega) (by rw [a9]; omega) (by rw [a8, a9])
  rw [a8, a9] at b4
  refine ⟨b1, b2, b3, ?_, by rw [b5, a5], by rw [b6, a6], by rw [b7, a7]⟩
  rw [b4, a4, subsetMem, subsetBins]
  rw [hsc] at a10
  have hlen : ((List.range N).filter (fun i => s.mask.testBit i)).length = K := by
    rw [← popCount_eq_filter_length N s.mask hml, hpc]
  rcases hK23 with rfl | rfl
  · obtain ⟨i, j, hps⟩ := List.length_eq_two.mp hlen
    rw [hps, scanRun_two] at a10
    simp only [Prod.mk.injEq] at a10
    obtain ⟨e0, e1, e2, e3⟩ := a10
    have hA : selA N data s.mask = nibble data i := by
      rw [selA, selVals, hps]; rfl
    have hB : selB N data s.mask = nibble data j := by
      rw [selB, selVals, hps]; rfl
    rw [opsFrom_seq_two]
    simp only [finalRes_two]
    rw [e1, e2, hA, hB]
  · obtain ⟨i, j, k, hps⟩ := List.length_eq_three.mp hlen
    rw [hps, scanRun_three] at a10
    simp only [Prod.mk.injEq] at a10
    obtain ⟨e0, e1, e2, e3⟩ := a10
    have hA : selA N data s.mask = nibble data i := by
      rw [selA, selVals, hps]; rfl
    have hB : selB N data s.mask = nibble data j := by
      rw [selB, selVals, hps]; rfl
    have hC : selC N data s.mask = nibble data k := by
      rw [selC, selVals, hps]; rfl
    rw [opsFrom_seq_three]
    rw [e1, e2, e3, hA, hB, hC]

/-! ## The subset loop: from the first subset to DONE -/

theorem maskTail_last {N K m : Nat} (hm : m < 2 ^ N) (hpc : popCount m = K)
    (hlast : m = lastMask N K) : maskTail N K m = [m] := by
  rw [maskTail]
  have hcongr : ∀ x ∈ List.range (2 ^ N),
      (decide (popCount x = K) && decide (m ≤ x)) = decide (x = m) := by
    intro x hx
    rw [List.mem_range] at hx
    by_cases h1 : popCount x = K
    · by_cases h2 : m ≤ x
      · have hle : x ≤ lastMask N K := le_lastMask hx h1
        have : x = m := by omega
        simp [h1, h2, this, hpc]
      · have : ¬ x = m := by omega
        simp [h1, h2, this]
    · have : ¬ x = m := by rintro rfl; exact h1 hpc
      simp [h1, this]
  rw [List.filter_congr hcongr, List.filter_eq,
      List.count_eq_one_of_mem (List.nodup_range _) (List.mem_range.mpr hm)]
  rfl

theorem maskTail_cons {N K m : Nat} (hm : m < 2 ^ N) (hpc : popCount m = K)
    (hne : m ≠ lastMask N K) :
    maskTail N K m = m :: maskTail N K (gosperNext N m) := by
  obtain ⟨hgt, hlt2, hpc2, hmin⟩ := gosper_correct hm hpc hne
  rw [maskTail, maskTail]
  exact filter_range_pop (q := fun x => decide (popCount x = K))
    (n := 2 ^ N) hm (by simp [hpc]) hgt
    (fun y hy1 hy2 => by simp [hmin y hy1 hy2])

theorem loop_phase {N K CW data : Nat} {inp : Inp} (hK23 : K = 2 ∨ K = 3) :
    ∀ d (s : St), 2 ^ N - s.mask ≤ d →
      s.fsm = .scanSelect → s.wr_en = false → s.use_internal_read = false →
      s.scan_i = 0 → s.sel_count = 0 →
      s.mask < 2 ^ N → popCount s.mask = K →
      (iterC N K CW data inp
        ((maskTail N K s.mask).length * (N + 1 + 4 * remEv K 0 0 + 1)) s).fsm =
          .finished ∧
      (iterC N K CW data inp
        ((maskTail N K s.mask).length * (N + 1 + 4 * remEv K 0 0 + 1)) s).busy =
          false ∧
      (iterC N K CW data inp
        ((maskTail N K s.mask).length * (N + 1 + 4 * remEv K 0 0 + 1)) s).done =
          true ∧
      (iterC N K CW data inp
        ((maskTail N K s.mask).length * (N + 1 + 4 * remEv K 0 0 + 1)) s).mem =
          runMem N K CW data s.mem (maskTail N K s.mask) := by
  intro d
  induction d with
  | zero => intro s hd _ _ _ _ _ hml _; omega
  | succ d ih =>
    intro s hd hf hw hu hsi hsc hml hpc
    obtain ⟨b1, b2, b3, b4, b5, b6, b7⟩ :=
      @subset_phase N K CW data inp s hK23 hf hw hu hsi hsc hml hpc
    by_cases hlast : s.mask = lastMask N K
    · rw [maskTail_last hml hpc hlast]
      rw [List.length_cons, List.length_nil, Nat.zero_add, Nat.one_mul,
          iterC_add, iterC_one, step_eq_next_last b1 (by rw [b5]; exact hlast)]
      refine ⟨rfl, rfl, rfl, ?_⟩
      show memW _ = _
      rw [memW_of_false b2, b4]
      simp [runMem]
    · obtain ⟨hgt, hlt2, hpc2, hmin⟩ := gosper_correct hml hpc hlast
      rw [maskTail_cons hml hpc hlast]
      have hsteps : (s.mask :: maskTail N K (gosperNext N s.mask)).length *
            (N + 1 + 4 * remEv K 0 0 + 1) =
          (N + 1 + 4 * remEv K 0 0 + 1) +
            (maskTail N K (gosperNext N s.mask)).length *
              (N + 1 + 4 * remEv K 0 0 + 1) := by
        rw [List.length_cons]; ring
      rw [hsteps, iterC_add, iterC_add, iterC_one]
      have hstep := @step_eq_next_cont N K CW data inp
        (iterC N K CW data inp (N + 1 + 4 * remEv K 0 0) s) b1
        (by rw [b5]; exact hlast)
      have hZm : (step N K CW data inp
          (iterC N K CW data inp (N + 1 + 4 * remEv K 0 0) s)).mask =
          gosperNext N s.mask := by rw [hstep, b5]
      have hZmem : (step N K CW data inp
          (iterC N K CW data inp (N + 1 + 4 * remEv K 0 0) s)).mem =
          subsetMem N K CW data s.mem s.mask := by
        rw [hstep]
        show memW _ = _
        rw [memW_of_false b2, b4]
      obtain ⟨i1, i2, i3, i4⟩ :=
        ih (step N K CW data inp (iterC N K CW data inp (N + 1 + 4 * remEv K 0 0) s))
          (by rw [hZm]; omega)
          (by rw [hstep])
          (by rw [hstep]; exact b2)
          (by rw [hstep]; exact b3)
          (by rw [hstep])
          (by rw [hstep])
          (by rw [hZm]; exact hlt2)
          (by rw [hZm]; exact hpc2)
      rw [hZm] at i1 i2 i3 i4
      rw [hZmem] at i4
      refine ⟨i1, i2, i3, ?_⟩
      rw [runMem, List.foldl_cons]
      exact i4

/-! ## Startup: from reset through the clear loop to the first scan -/

theorem startup {N K CW data : Nat} {inp : Inp} (hstart : inp.start = true) :
    (iterC N K CW data inp 19 reset).fsm = .scanSelect ∧
    (iterC N K CW data inp 19 reset).wr_en = false ∧
    (iterC N K CW data inp 19 reset).use_internal_read = false ∧
    (iterC N K CW data inp 19 reset).scan_i = 0 ∧
    (iterC N K CW data inp 19 reset).sel_count = 0 ∧
    (iterC N K CW data inp 19 reset).mask = initMask N K ∧
    (iterC N K CW data inp 19 reset).mem = List.replicate 16 0 ∧
    (iterC N K CW data inp 19 reset).busy = true ∧
    (iterC N K CW data inp 19 reset).done = false := by
  have e1 : step N K CW data inp reset =
      { fsm := .clearInit, mask := 0, scan_i := 0, sel_count := 0, sel0 := 0, sel1 := 0, sel2 := 0, op1 := 0, op2 := 0, bin_val := 0, busy := false, done := false, clr_idx := 0, wr_en := false, wr_addr := 0, wr_data := 0, use_internal_read := false, int_rd_addr := 0, mem := List.replicate 16 0, rd_data := memGet (List.replicate 16 0) (inp.rd_addr % 16) } := by
    rw [step_eq_idle rfl, hstart]
    rfl
  have e2 : step N K CW data inp { fsm := .clearInit, mask := 0, scan_i := 0, sel_count := 0, sel0 := 0, sel1 := 0, sel2 := 0, op1 := 0, op2 := 0, bin_val := 0, busy := false, done := false, clr_idx := 0, wr_en := false, wr_addr := 0, wr_data := 0, use_internal_read := false, int_rd_addr := 0, mem := List.replicate 16 0, rd_data := memGet (List.replicate 16 0) (inp.rd_addr % 16) } =
      { fsm := .clearStep, mask := 0, scan_i := 0, sel_count := 0, sel0 := 0, sel1 := 0, sel2 := 0, op1 := 0, op2 := 0, bin_val := 0, busy := true, done := false, clr_idx := 0, wr_en := false, wr_addr := 0, wr_data := 0, use_internal_read := false, int_rd_addr := 0, mem := List.replicate 16 0, rd_data := memGet (List.replicate 16 0) (inp.rd_addr % 16) } := by
    rfl
  have e3 : step N K CW data inp { fsm := .clearStep, mask := 0, scan_i := 0, sel_count := 0, sel0 := 0, sel1 := 0, sel2 := 0, op1 := 0, op2 := 0, bin_val := 0, busy := true, done := false, clr_idx := 0, wr_en := false, wr_addr := 0, wr_data := 0, use_internal_read := false, int_rd_addr := 0, mem := List.replicate 16 0, rd_data := memGet (List.replicate 16 0) (inp.rd_addr % 16) } =
      { fsm := .clearStep, mask := 0, scan_i := 0, sel_count := 0, sel0 := 0, sel1 := 0, sel2 := 0, op1 := 0, op2 := 0, bin_val := 0, busy := true, done := false, clr_idx := 1, wr_en := true, wr_addr := 0, wr_data := 0, use_internal_read := false, int_rd_addr := 0, mem := List.replicate 16 0, rd_data := memGet (List.replicate 16 0) (inp.rd_addr % 16) } := by
    rfl
  have e4 : step N K CW data inp { fsm := .clearStep, mask := 0, scan_i := 0, sel_count := 0, sel0 := 0, sel1 := 0, sel2 := 0, op1 := 0, op2 := 0, bin_val := 0, busy := true, done := false, clr_idx := 1, wr_en := true, wr_addr := 0, wr_data := 0, use_internal_read := false, int_rd_addr := 0, mem := List.replicate 16 0, rd_data := memGet (List.replicate 16 0) (inp.rd_addr % 16) } =
      { fsm := .clearStep, mask := 0, scan_i := 0, sel_count := 0, sel0 := 0, sel1 := 0, sel2 := 0, op1 := 0, op2 := 0, bin_val := 0, busy := true, done := false, clr_idx := 2, wr_en := true, wr_addr := 1, wr_data := 0, use_internal_read := false, int_rd_addr := 0, mem := List.replicate 16 0, rd_data := memGet (List.replicate 16 0) (inp.rd_addr % 16) } := by
    rfl
  have e5 : step N K CW data inp { fsm := .clearStep, mask := 0, scan_i := 0, sel_count := 0, sel0 := 0, sel1 := 0, sel2 := 0, op1 := 0, op2 := 0, bin_val := 0, busy := true, done := false, clr_idx := 2, wr_en := true, wr_addr := 1, wr_data := 0, use_internal_read := false, int_rd_addr := 0, mem := List.replicate 16 0, rd_data := memGet (List.replicate 16 0) (inp.rd_addr % 16) } =
      { fsm := .clearStep, mask := 0, scan_i := 0, sel_count := 0, sel0 := 0, sel1 := 0, sel2 := 0, op1 := 0, op2 := 0, bin_val := 0, busy := true, done := false, clr_idx := 3, wr_en := true, wr_addr := 2, wr_data := 0, use_internal_read := false, int_rd_addr := 0, mem := List.replicate 16 0, rd_data := memGet (List.replicate 16 0) (inp.rd_addr % 16) } := by
    rfl
  have e6 : step N K CW data inp { fsm := .clearStep, mask := 0, scan_i := 0, sel_count := 0, sel0 := 0, sel1 := 0, sel2 := 0, op1 := 0, op2 := 0, bin_val := 0, busy := true, done := false, clr_idx := 3, wr_en := true, wr_addr := 2, wr_data := 0, use_internal_read := false, int_rd_addr := 0, mem := List.replicate 16 0, rd_data := memGet (List.replicate 16 0) (inp.rd_addr % 16) } =
      { fsm := .clearStep, mask := 0, scan_i := 0, sel_count := 0, sel0 := 0, sel1 := 0, sel2 := 0, op1 := 0, op2 := 0, bin_val := 0, busy := true, done := false, clr_idx := 4, wr_en := true, wr_addr := 3, wr_data := 0, use_internal_read := false, int_rd_addr := 0, mem := List.replicate 16 0, rd_data := memGet (List.replicate 16 0) (inp.rd_addr % 16) } := by
    rfl
  have e7 : step N K CW data inp { fsm := .clearStep, mask := 0, scan_i := 0, sel_count := 0, sel0 := 0, sel1 := 0, sel2 := 0, op1 := 0, op2 := 0, bin_val := 0, busy := true, done := false, clr_idx := 4, wr_en := true, wr_addr := 3, wr_data := 0, use_internal_read := false, int_rd_addr := 0, mem := List.replicate 16 0, rd_data := memGet (List.replicate 16 0) (inp.rd_addr % 16) } =
      { fsm := .clearStep, mask := 0, scan_i := 0, sel_count := 0, sel0 := 0, sel1 := 0, sel2 := 0, op1 := 0, op2 := 0, bin_val := 0, busy := true, done := false, clr_idx := 5, wr_en := true, wr_addr := 4, wr_data := 0, use_internal_read := false, int_rd_addr := 0, mem := List.replicate 16 0, rd_data := memGet (List.replicate 16 0) (inp.rd_addr % 16) } := by
    rfl
  have e8 : step N K CW data inp { fsm := .clearStep, mask := 0, scan_i := 0, sel_count := 0, sel0 := 0, sel1 := 0, sel2 := 0, op1 := 0, op2 := 0, bin_val := 0, busy := true, done := false, clr_idx := 5, wr_en := true, wr_addr := 4, wr_data := 0, use_internal_read := false, int_rd_addr := 0, mem := List.replicate 16 0, rd_data := memGet (List.replicate 16 0) (inp.rd_addr % 16) } =
      { fsm := .clearStep, mask := 0, scan_i := 0, sel_count := 0, sel0 := 0, sel1 := 0, sel2 := 0, op1 := 0, op2 := 0, bin_val := 0, busy := true, done := false, clr_idx := 6, wr_en := true, wr_addr := 5, wr_data := 0, use_internal_read := false, int_rd_addr := 0, mem := List.replicate 16 0, rd_data := memGet (List.replicate 16 0) (inp.rd_addr % 16) } := by
    rfl
  have e9 : step N K CW data inp { fsm := .clearStep, mask := 0, scan_i := 0, sel_count := 0, sel0 := 0, sel1 := 0, sel2 := 0, op1 := 0, op2 := 0, bin_val := 0, busy := true, done := false, clr_idx := 6, wr_en := true, wr_addr := 5, wr_data := 0, use_internal_read := false, int_rd_addr := 0, mem := List.replicate 16 0, rd_data := memGet (List.replicate 16 0) (inp.rd_addr % 16) } =
      { fsm := .clearStep, mask := 0, scan_i := 0, sel_count := 0, sel0 := 0, sel1 := 0, sel2 := 0, op1 := 0, op2 := 0, bin_val := 0, busy := true, done := false, clr_idx := 7, wr_en := true, wr_addr := 6, wr_data := 0, use_internal_read := false, int_rd_addr := 0, mem := List.replicate 16 0, rd_data := memGet (List.replicate 16 0) (inp.rd_addr % 16) } := by
    rfl
  have e10 : step N K CW data inp { fsm := .clearStep, mask := 0, scan_i := 0, sel_count := 0, sel0 := 0, sel1 := 0, sel2 := 0, op1 := 0, op2 := 0, bin_val := 0, busy := true, done := false, clr_idx := 7, wr_en := true, wr_addr := 6, wr_data := 0, use_internal_read := false, int_rd_addr := 0, mem := List.replicate 16 0, rd_data := memGet (List.replicate 16 0) (inp.rd_addr % 16) } =
      { fsm := .clearStep, mask := 0, scan_i := 0, sel_count := 0, sel0 := 0, sel1 := 0, sel2 := 0, op1 := 0, op2 := 0, bin_val := 0, busy := true, done := false, clr_idx := 8, wr_en := true, wr_addr := 7, wr_data := 0, use_internal_read := false, int_rd_addr := 0, mem := List.replicate 16 0, rd_data := memGet (List.replicate 16 0) (inp.rd_addr % 16) } := by
    rfl
  have e11 : step N K CW data inp { fsm := .clearStep, mask := 0, scan_i := 0, sel_count := 0, sel0 := 0, sel1 := 0, sel2 := 0, op1 := 0, op2 := 0, bin_val := 0, busy := true, done := false, clr_idx := 8, wr_en := true, wr_addr := 7, wr_data := 0, use_internal_read := false, int_rd_addr := 0, mem := List.replicate 16 0, rd_data := memGet (List.replicate 16 0) (inp.rd_addr % 16) } =
      { fsm := .clearStep, mask := 0, scan_i := 0, sel_count := 0, sel0 := 0, sel1 := 0, sel2 := 0, op1 := 0, op2 := 0, bin_val := 0, busy := true, done := false, clr_idx := 9, wr_en := true, wr_addr := 8, wr_data := 0, use_internal_read := false, int_rd_addr := 0, mem := List.replicate 16 0, rd_data := memGet (List.replicate 16 0) (inp.rd_addr % 16) } := by
    rfl
  have e12 : step N K CW data inp { fsm := .clearStep, mask := 0, scan_i := 0, sel_count := 0, sel0 := 0, sel1 := 0, sel2 := 0, op1 := 0, op2 := 0, bin_val := 0, busy := true, done := false, clr_idx := 9, wr_en := true, wr_addr := 8, wr_data := 0, use_internal_read := false, int_rd_addr := 0, mem := List.replicate 16 0, rd_data := memGet (List.replicate 16 0) (inp.rd_addr % 16) } =
      { fsm := .clearStep, mask := 0, scan_i := 0, sel_count := 0, sel0 := 0, sel1 := 0, sel2 := 0, op1 := 0, op2 := 0, bin_val := 0, busy := true, done := false, clr_idx := 10, wr_en := true, wr_addr := 9, wr_data := 0, use_internal_read := false, int_rd_addr := 0, mem := List.replicate 16 0, rd_data := memGet (List.replicate 16 0) (inp.rd_addr % 16) } := by
    rfl
  have e13 : step N K CW data inp { fsm := .clearStep, mask := 0, scan_i := 0, sel_count := 0, sel0 := 0, sel1 := 0, sel2 := 0, op1 := 0, op2 := 0, bin_val := 0, busy := true, done := false, clr_idx := 10, wr_en := true, wr_addr := 9, wr_data := 0, use_internal_read := false, int_rd_addr := 0, mem := List.replicate 16 0, rd_data := memGet (List.replicate 16 0) (inp.rd_addr % 16) } =
      { fsm := .clearStep, mask := 0, scan_i := 0, sel_count := 0, sel0 := 0, sel1 := 0, sel2 := 0, op1 := 0, op2 := 0, bin_val := 0, busy := true, done := false, clr_idx := 11, wr_en := true, wr_addr := 10, wr_data := 0, use_internal_read := false, int_rd_addr := 0, mem := List.replicate 16 0, rd_data := memGet (List.replicate 16 0) (inp.rd_addr % 16) } := by
    rfl
  have e14 : step N K CW data inp { fsm := .clearStep, mask := 0, scan_i := 0, sel_count := 0, sel0 := 0, sel1 := 0, sel2 := 0, op1 := 0, op2 := 0, bin_val := 0, busy := true, done := false, clr_idx := 11, wr_en := true, wr_addr := 10, wr_data := 0, use_internal_read := false, int_rd_addr := 0, mem := List.replicate 16 0, rd_data := memGet (List.replicate 16 0) (inp.rd_addr % 16) } =
      { fsm := .clearStep, mask := 0, scan_i := 0, sel_count := 0, sel0 := 0, sel1 := 0, sel2 := 0, op1 := 0, op2 := 0, bin_val := 0, busy := true, done := false, clr_idx := 12, wr_en := true, wr_addr := 11, wr_data := 0, use_internal_read := false, int_rd_addr := 0, mem := List.replicate 16 0, rd_data := memGet (List.replicate 16 0) (inp.rd_addr % 16) } := by
    rfl
  have e15 : step N K CW data inp { fsm := .clearStep, mask := 0, scan_i := 0, sel_count := 0, sel0 := 0, sel1 := 0, sel2 := 0, op1 := 0, op2 := 0, bin_val := 0, busy := true, done := false, clr_idx := 12, wr_en := true, wr_addr := 11, wr_data := 0, use_internal_read := false, int_rd_addr := 0, mem := List.replicate 16 0, rd_data := memGet (List.replicate 16 0) (inp.rd_addr % 16) } =
      { fsm := .clearStep, mask := 0, scan_i := 0, sel_count := 0, sel0 := 0, sel1 := 0, sel2 := 0, op1 := 0, op2 := 0, bin_val := 0, busy := true, done := false, clr_idx := 13, wr_en := true, wr_addr := 12, wr_data := 0, use_internal_read := false, int_rd_addr := 0, mem := List.replicate 16 0, rd_data := memGet (List.replicate 16 0) (inp.rd_addr % 16) } := by
    rfl
  have e16 : step N K CW data inp { fsm := .clearStep, mask := 0, scan_i := 0, sel_count := 0, sel0 := 0, sel1 := 0, sel2 := 0, op1 := 0, op2 := 0, bin_val := 0, busy := true, done := false, clr_idx := 13, wr_en := true, wr_addr := 12, wr_data := 0, use_internal_read := false, int_rd_addr := 0, mem := List.replicate 16 0, rd_data := memGet (List.replicate 16 0) (inp.rd_addr % 16) } =
      { fsm := .clearStep, mask := 0, scan_i := 0, sel_count := 0, sel0 := 0, sel1 := 0, sel2 := 0, op1 := 0, op2 := 0, bin_val := 0, busy := true, done := false, clr_idx := 14, wr_en := true, wr_addr := 13, wr_data := 0, use_internal_read := false, int_rd_addr := 0, mem := List.replicate 16 0, rd_data := memGet (List.replicate 16 0) (inp.rd_addr % 16) } := by
    rfl
  have e17 : step N K CW data inp { fsm := .clearStep, mask := 0, scan_i := 0, sel_count := 0, sel0 := 0, sel1 := 0, sel2 := 0, op1 := 0, op2 := 0, bin_val := 0, busy := true, done := false, clr_idx := 14, wr_en := true, wr_addr := 13, wr_data := 0, use_internal_read := false, int_rd_addr := 0, mem := List.replicate 16 0, rd_data := memGet (List.replicate 16 0) (inp.rd_addr % 16) } =
      { fsm := .clearStep, mask := 0, scan_i := 0, sel_count := 0, sel0 := 0, sel1 := 0, sel2 := 0, op1 := 0, op2 := 0, bin_val := 0, busy := true, done := false, clr_idx := 15, wr_en := true, wr_addr := 14, wr_data := 0, use_internal_read := false, int_rd_addr := 0, mem := List.replicate 16 0, rd_data := memGet (List.replicate 16 0) (inp.rd_addr % 16) } := by
    rfl
  have e18 : step N K CW data inp { fsm := .clearStep, mask := 0, scan_i := 0, sel_count := 0, sel0 := 0, sel1 := 0, sel2 := 0, op1 := 0, op2 := 0, bin_val := 0, busy := true, done := false, clr_idx := 15, wr_en := true, wr_addr := 14, wr_data := 0, use_internal_read := false, int_rd_addr := 0, mem := List.replicate 16 0, rd_data := memGet (List.replicate 16 0) (inp.rd_addr % 16) } =
      { fsm := .initEnum, mask := 0, scan_i := 0, sel_count := 0, sel0 := 0, sel1 := 0, sel2 := 0, op1 := 0, op2 := 0, bin_val := 0, busy := true, done := false, clr_idx := 15, wr_en := false, wr_addr := 15, wr_data := 0, use_internal_read := false, int_rd_addr := 0, mem := List.replicate 16 0, rd_data := memGet (List.replicate 16 0) (inp.rd_addr % 16) } := by
    rfl
  have e19 : step N K CW data inp { fsm := .initEnum, mask := 0, scan_i := 0, sel_count := 0, sel0 := 0, sel1 := 0, sel2 := 0, op1 := 0, op2 := 0, bin_val := 0, busy := true, done := false, clr_idx := 15, wr_en := false, wr_addr := 15, wr_data := 0, use_internal_read := false, int_rd_addr := 0, mem := List.replicate 16 0, rd_data := memGet (List.replicate 16 0) (inp.rd_addr % 16) } =
      { fsm := .scanSelect, mask := initMask N K, scan_i := 0, sel_count := 0, sel0 := 0, sel1 := 0, sel2 := 0, op1 := 0, op2 := 0, bin_val := 0, busy := true, done := false, clr_idx := 15, wr_en := false, wr_addr := 15, wr_data := 0, use_internal_read := false, int_rd_addr := 0, mem := List.replicate 16 0, rd_data := memGet (List.replicate 16 0) (inp.rd_addr % 16) } := by
    rfl
  have run : iterC N K CW data inp 19 reset =
      { fsm := .scanSelect, mask := initMask N K, scan_i := 0, sel_count := 0, sel0 := 0, sel1 := 0, sel2 := 0, op1 := 0, op2 := 0, bin_val := 0, busy := true, done := false, clr_idx := 15, wr_en := false, wr_addr := 15, wr_data := 0, use_internal_read := false, int_rd_addr := 0, mem := List.replicate 16 0, rd_data := memGet (List.replicate 16 0) (inp.rd_addr % 16) } := by
    rw [show iterC N K CW data inp 19 reset = iterC N K CW data inp 18 (step N K CW data inp reset) from rfl, e1]
    rw [show iterC N K CW data inp 18 { fsm := .clearInit, mask := 0, scan_i := 0, sel_count := 0, sel0 := 0, sel1 := 0, sel2 := 0, op1 := 0, op2 := 0, bin_val := 0, busy := false, done := false, clr_idx := 0, wr_en := false, wr_addr := 0, wr_data := 0, use_internal_read := false, int_rd_addr := 0, mem := List.replicate 16 0, rd_data := memGet (List.replicate 16 0) (inp.rd_addr % 16) } = iterC N K CW data inp 17 (step N K CW data inp { fsm := .clearInit, mask := 0, scan_i := 0, sel_count := 0, sel0 := 0, sel1 := 0, sel2 := 0, op1 := 0, op2 := 0, bin_val := 0, busy := false, done := false, clr_idx := 0, wr_en := false, wr_addr := 0, wr_data := 0, use_internal_read := false, int_rd_addr := 0, mem := List.replicate 16 0, rd_data := memGet (List.replicate 16 0) (inp.rd_addr % 16) }) from rfl, e2]
    rw [show iterC N K CW data inp 17 { fsm := .clearStep, mask := 0, scan_i := 0, sel_count := 0, sel0 := 0, sel1 := 0, sel2 := 0, op1 := 0, op2 := 0, bin_val := 0, busy := true, done := false, clr_idx := 0, wr_en := false, wr_addr := 0, wr_data := 0, use_internal_read := false, int_rd_addr := 0, mem := List.replicate 16 0, rd_data := memGet (List.replicate 16 0) (inp.rd_addr % 16) } = iterC N K CW data inp 16 (step N K CW data inp { fsm := .clearStep, mask := 0, scan_i := 0, sel_count := 0, sel0 := 0, sel1 := 0, sel2 := 0, op1 := 0, op2 := 0, bin_val := 0, busy := true, done := false, clr_idx := 0, wr_en := false, wr_addr := 0, wr_data := 0, use_internal_read := false, int_rd_addr := 0, mem := List.replicate 16 0, rd_data := memGet (List.replicate 16 0) (inp.rd_addr % 16) }) from rfl, e3]
    rw [show iterC N K CW data inp 16 { fsm := .clearStep, mask := 0, scan_i := 0, sel_count := 0, sel0 := 0, sel1 := 0, sel2 := 0, op1 := 0, op2 := 0, bin_val := 0, busy := true, done := false, clr_idx := 1, wr_en := true, wr_addr := 0, wr_data := 0, use_internal_read := false, int_rd_addr := 0, mem := List.replicate 16 0, rd_data := memGet (List.replicate 16 0) (inp.rd_addr % 16) } = iterC N K CW data inp 15 (step N K CW data inp { fsm := .clearStep, mask := 0, scan_i := 0, sel_count := 0, sel0 := 0, sel1 := 0, sel2 := 0, op1 := 0, op2 := 0, bin_val := 0, busy := true, done := false, clr_idx := 1, wr_en := true, wr_addr := 0, wr_data := 0, use_internal_read := false, int_rd_addr := 0, mem := List.replicate 16 0, rd_data := memGet (List.replicate 16 0) (inp.rd_addr % 16) }) from rfl, e4]
    rw [show iterC N K CW data inp 15 { fsm := .clearStep, mask := 0, scan_i := 0, sel_count := 0, sel0 := 0, sel1 := 0, sel2 := 0, op1 := 0, op2 := 0, bin_val := 0, busy := true, done := false, clr_idx := 2, wr_en := true, wr_addr := 1, wr_data := 0, use_internal_read := false, int_rd_addr := 0, mem := List.replicate 16 0, rd_data := memGet (List.replicate 16 0) (inp.rd_addr % 16) } = iterC N K CW data inp 14 (step N K CW data inp { fsm := .clearStep, mask := 0, scan_i := 0, sel_count := 0, sel0 := 0, sel1 := 0, sel2 := 0, op1 := 0, op2 := 0, bin_val := 0, busy := true, done := false, clr_idx := 2, wr_en := true, wr_addr := 1, wr_data := 0, use_internal_read := false, int_rd_addr := 0, mem := List.replicate 16 0, rd_data := memGet (List.replicate 16 0) (inp.rd_addr % 16) }) from rfl, e5]
    rw [show iterC N K CW data inp 14 { fsm := .clearStep, mask := 0, scan_i := 0, sel_count := 0, sel0 := 0, sel1 := 0, sel2 := 0, op1 := 0, op2 := 0, bin_val := 0, busy := true, done := false, clr_idx := 3, wr_en := true, wr_addr := 2, wr_data := 0, use_internal_read := false, int_rd_addr := 0, mem := List.replicate 16 0, rd_data := memGet (List.replicate 16 0) (inp.rd_addr % 16) } = iterC N K CW data inp 13 (step N K CW data inp { fsm := .clearStep, mask := 0, scan_i := 0, sel_count := 0, sel0 := 0, sel1 := 0, sel2 := 0, op1 := 0, op2 := 0, bin_val := 0, busy := true, done := false, clr_idx := 3, wr_en := true, wr_addr := 2, wr_data := 0, use_internal_read := false, int_rd_addr := 0, mem := List.replicate 16 0, rd_data := memGet (List.replicate 16 0) (inp.rd_addr % 16) }) from rfl, e6]
    rw [show iterC N K CW data inp 13 { fsm := .clearStep, mask := 0, scan_i := 0, sel_count := 0, sel0 := 0, sel1 := 0, sel2 := 0, op1 := 0, op2 := 0, bin_val := 0, busy := true, done := false, clr_idx := 4, wr_en := true, wr_addr := 3, wr_data := 0, use_internal_read := false, int_rd_addr := 0, mem := List.replicate 16 0, rd_data := memGet (List.replicate 16 0) (inp.rd_addr % 16) } = iterC N K CW data inp 12 (step N K CW data inp { fsm := .clearStep, mask := 0, scan_i := 0, sel_count := 0, sel0 := 0, sel1 := 0, sel2 := 0, op1 := 0, op2 := 0, bin_val := 0, busy := true, done := false, clr_idx := 4, wr_en := true, wr_addr := 3, wr_data := 0, use_internal_read := false, int_rd_addr := 0, mem := List.replicate 16 0, rd_data := memGet (List.replicate 16 0) (inp.rd_addr % 16) }) from rfl, e7]
    rw [show iterC N K CW data inp 12 { fsm := .clearStep, mask := 0, scan_i := 0, sel_count := 0, sel0 := 0, sel1 := 0, sel2 := 0, op1 := 0, op2 := 0, bin_val := 0, busy := true, done := false, clr_idx := 5, wr_en := true, wr_addr := 4, wr_data := 0, use_internal_read := false, int_rd_addr := 0, mem := List.replicate 16 0, rd_data := memGet (List.replicate 16 0) (inp.rd_addr % 16) } = iterC N K CW data inp 11 (step N K CW data inp { fsm := .clearStep, mask := 0, scan_i := 0, sel_count := 0, sel0 := 0, sel1 := 0, sel2 := 0, op1 := 0, op2 := 0, bin_val := 0, busy := true, done := false, clr_idx := 5, wr_en := true, wr_addr := 4, wr_data := 0, use_internal_read := false, int_rd_addr := 0, mem := List.replicate 16 0, rd_data := memGet (List.replicate 16 0) (inp.rd_addr % 16) }) from rfl, e8]
    rw [show iterC N K CW data inp 11 { fsm := .clearStep, mask := 0, scan_i := 0, sel_count := 0, sel0 := 0, sel1 := 0, sel2 := 0, op1 := 0, op2 := 0, bin_val := 0, busy := true, done := false, clr_idx := 6, wr_en := true, wr_addr := 5, wr_data := 0, use_internal_read := false, int_rd_addr := 0, mem := List.replicate 16 0, rd_data := memGet (List.replicate 16 0) (inp.rd_addr % 16) } = iterC N K CW data inp 10 (step N K CW data inp { fsm := .clearStep, mask := 0, scan_i := 0, sel_count := 0, sel0 := 0, sel1 := 0, sel2 := 0, op1 := 0, op2 := 0, bin_val := 0, busy := true, done := false, clr_idx := 6, wr_en := true, wr_addr := 5, wr_data := 0, use_internal_read := false, int_rd_addr := 0, mem := List.replicate 16 0, rd_data := memGet (List.replicate 16 0) (inp.rd_addr % 16) }) from rfl, e9]
    rw [show iterC N K CW data inp 10 { fsm := .clearStep, mask := 0, scan_i := 0, sel_count := 0, sel0 := 0, sel1 := 0, sel2 := 0, op1 := 0, op2 := 0, bin_val := 0, busy := true, done := false, clr_idx := 7, wr_en := true, wr_addr := 6, wr_data := 0, use_internal_read := false, int_rd_addr := 0, mem := List.replicate 16 0, rd_data := memGet (List.replicate 16 0) (inp.rd_addr % 16) } = iterC N K CW data inp 9 (step N K CW data inp { fsm := .clearStep, mask := 0, scan_i := 0, sel_count := 0, sel0 := 0, sel1 := 0, sel2 := 0, op1 := 0, op2 := 0, bin_val := 0, busy := true, done := false, clr_idx := 7, wr_en := true, wr_addr := 6, wr_data := 0, use_internal_read := false, int_rd_addr := 0, mem := List.replicate 16 0, rd_data := memGet (List.replicate 16 0) (inp.rd_addr % 16) }) from rfl, e10]
    rw [show iterC N K CW data inp 9 { fsm := .clearStep, mask := 0, scan_i := 0, sel_count := 0, sel0 := 0, sel1 := 0, sel2 := 0, op1 := 0, op2 := 0, bin_val := 0, busy := true, done := false, clr_idx := 8, wr_en := true, wr_addr := 7, wr_data := 0, use_internal_read := false, int_rd_addr := 0, mem := List.replicate 16 0, rd_data := memGet (List.replicate 16 0) (inp.rd_addr % 16) } = iterC N K CW data inp 8 (step N K CW data inp { fsm := .clearStep, mask := 0, scan_i := 0, sel_count := 0, sel0 := 0, sel1 := 0, sel2 := 0, op1 := 0, op2 := 0, bin_val := 0, busy := true, done := false, clr_idx := 8, wr_en := true, wr_addr := 7, wr_data := 0, use_internal_read := false, int_rd_addr := 0, mem := List.replicate 16 0, rd_data := memGet (List.replicate 16 0) (inp.rd_addr % 16) }) from rfl, e11]
    rw [show iterC N K CW data inp 8 { fsm := .clearStep, mask := 0, scan_i := 0, sel_count := 0, sel0 := 0, sel1 := 0, sel2 := 0, op1 := 0, op2 := 0, bin_val := 0, busy := true, done := false, clr_idx := 9, wr_en := true, wr_addr := 8, wr_data := 0, use_internal_read := false, int_rd_addr := 0, mem := List.replicate 16 0, rd_data := memGet (List.replicate 16 0) (inp.rd_addr % 16) } = iterC N K CW data inp 7 (step N K CW data inp { fsm := .clearStep, mask := 0, scan_i := 0, sel_count := 0, sel0 := 0, sel1 := 0, sel2 := 0, op1 := 0, op2 := 0, bin_val := 0, busy := true, done := false, clr_idx := 9, wr_en := true, wr_addr := 8, wr_data := 0, use_internal_read := false, int_rd_addr := 0, mem := List.replicate 16 0, rd_data := memGet (List.replicate 16 0) (inp.rd_addr % 16) }) from rfl, e12]
    rw [show iterC N K CW data inp 7 { fsm := .clearStep, mask := 0, scan_i := 0, sel_count := 0, sel0 := 0, sel1 := 0, sel2 := 0, op1 := 0, op2 := 0, bin_val := 0, busy := true, done := false, clr_idx := 10, wr_en := true, wr_addr := 9, wr_data := 0, use_internal_read := false, int_rd_addr := 0, mem := List.replicate 16 0, rd_data := memGet (List.replicate 16 0) (inp.rd_addr % 16) } = iterC N K CW data inp 6 (step N K CW data inp { fsm := .clearStep, mask := 0, scan_i := 0, sel_count := 0, sel0 := 0, sel1 := 0, sel2 := 0, op1 := 0, op2 := 0, bin_val := 0, busy := true, done := false, clr_idx := 10, wr_en := true, wr_addr := 9, wr_data := 0, use_internal_read := false, int_rd_addr := 0, mem := List.replicate 16 0, rd_data := memGet (List.replicate 16 0) (inp.rd_addr % 16) }) from rfl, e13]
    rw [show iterC N K CW data inp 6 { fsm := .clearStep, mask := 0, scan_i := 0, sel_count := 0, sel0 := 0, sel1 := 0, sel2 := 0, op1 := 0, op2 := 0, bin_val := 0, busy := true, done := false, clr_idx := 11, wr_en := true, wr_addr := 10, wr_data := 0, use_internal_read := false, int_rd_addr := 0, mem := List.replicate 16 0, rd_data := memGet (List.replicate 16 0) (inp.rd_addr % 16) } = iterC N K CW data inp 5 (step N K CW data inp { fsm := .clearStep, mask := 0, scan_i := 0, sel_count := 0, sel0 := 0, sel1 := 0, sel2 := 0, op1 := 0, op2 := 0, bin_val := 0, busy := true, done := false, clr_idx := 11, wr_en := true, wr_addr := 10, wr_data := 0, use_internal_read := false, int_rd_addr := 0, mem := List.replicate 16 0, rd_data := memGet (List.replicate 16 0) (inp.rd_addr % 16) }) from rfl, e14]
    rw [show iterC N K CW data inp 5 { fsm := .clearStep, mask := 0, scan_i := 0, sel_count := 0, sel0 := 0, sel1 := 0, sel2 := 0, op1 := 0, op2 := 0, bin_val := 0, busy := true, done := false, clr_idx := 12, wr_en := true, wr_addr := 11, wr_data := 0, use_internal_read := false, int_rd_addr := 0, mem := List.replicate 16 0, rd_data := memGet (List.replicate 16 0) (inp.rd_addr % 16) } = iterC N K CW data inp 4 (step N K CW data inp { fsm := .clearStep, mask := 0, scan_i := 0, sel_count := 0, sel0 := 0, sel1 := 0, sel2 := 0, op1 := 0, op2 := 0, bin_val := 0, busy := true, done := false, clr_idx := 12, wr_en := true, wr_addr := 11, wr_data := 0, use_internal_read := false, int_rd_addr := 0, mem := List.replicate 16 0, rd_data := memGet (List.replicate 16 0) (inp.rd_addr % 16) }) from rfl, e15]
    rw [show iterC N K CW data inp 4 { fsm := .clearStep, mask := 0, scan_i := 0, sel_count := 0, sel0 := 0, sel1 := 0, sel2 := 0, op1 := 0, op2 := 0, bin_val := 0, busy := true, done := false, clr_idx := 13, wr_en := true, wr_addr := 12, wr_data := 0, use_internal_read := false, int_rd_addr := 0, mem := List.replicate 16 0, rd_data := memGet (List.replicate 16 0) (inp.rd_addr % 16) } = iterC N K CW data inp 3 (step N K CW data inp { fsm := .clearStep, mask := 0, scan_i := 0, sel_count := 0, sel0 := 0, sel1 := 0, sel2 := 0, op1 := 0, op2 := 0, bin_val := 0, busy := true, done := false, clr_idx := 13, wr_en := true, wr_addr := 12, wr_data := 0, use_internal_read := false, int_rd_addr := 0, mem := List.replicate 16 0, rd_data := memGet (List.replicate 16 0) (inp.rd_addr % 16) }) from rfl, e16]
    rw [show iterC N K CW data inp 3 { fsm := .clearStep, mask := 0, scan_i := 0, sel_count := 0, sel0 := 0, sel1 := 0, sel2 := 0, op1 := 0, op2 := 0, bin_val := 0, busy := true, done := false, clr_idx := 14, wr_en := true, wr_addr := 13, wr_data := 0, use_internal_read := false, int_rd_addr := 0, mem := List.replicate 16 0, rd_data := memGet (List.replicate 16 0) (inp.rd_addr % 16) } = iterC N K CW data inp 2 (step N K CW data inp { fsm := .clearStep, mask := 0, scan_i := 0, sel_count := 0, sel0 := 0, sel1 := 0, sel2 := 0, op1 := 0, op2 := 0, bin_val := 0, busy := true, done := false, clr_idx := 14, wr_en := true, wr_addr := 13, wr_data := 0, use_internal_read := false, int_rd_addr := 0, mem := List.replicate 16 0, rd_data := memGet (List.replicate 16 0) (inp.rd_addr % 16) }) from rfl, e17]
    rw [show iterC N K CW data inp 2 { fsm := .clearStep, mask := 0, scan_i := 0, sel_count := 0, sel0 := 0, sel1 := 0, sel2 := 0, op1 := 0, op2 := 0, bin_val := 0, busy := true, done := false, clr_idx := 15, wr_en := true, wr_addr := 14, wr_data := 0, use_internal_read := false, int_rd_addr := 0, mem := List.replicate 16 0, rd_data := memGet (List.replicate 16 0) (inp.rd_addr % 16) } = iterC N K CW data inp 1 (step N K CW data inp { fsm := .clearStep, mask := 0, scan_i := 0, sel_count := 0, sel0 := 0, sel1 := 0, sel2 := 0, op1 := 0, op2 := 0, bin_val := 0, busy := true, done := false, clr_idx := 15, wr_en := true, wr_addr := 14, wr_data := 0, use_internal_read := false, int_rd_addr := 0, mem := List.replicate 16 0, rd_data := memGet (List.replicate 16 0) (inp.rd_addr % 16) }) from rfl, e18]
    rw [show iterC N K CW data inp 1 { fsm := .initEnum, mask := 0, scan_i := 0, sel_count := 0, sel0 := 0, sel1 := 0, sel2 := 0, op1 := 0, op2 := 0, bin_val := 0, busy := true, done := false, clr_idx := 15, wr_en := false, wr_addr := 15, wr_data := 0, use_internal_read := false, int_rd_addr := 0, mem := List.replicate 16 0, rd_data := memGet (List.replicate 16 0) (inp.rd_addr % 16) } = iterC N K CW data inp 0 (step N K CW data inp { fsm := .initEnum, mask := 0, scan_i := 0, sel_count := 0, sel0 := 0, sel1 := 0, sel2 := 0, op1 := 0, op2 := 0, bin_val := 0, busy := true, done := false, clr_idx := 15, wr_en := false, wr_addr := 15, wr_data := 0, use_internal_read := false, int_rd_addr := 0, mem := List.replicate 16 0, rd_data := memGet (List.replicate 16 0) (inp.rd_addr % 16) }) from rfl, e19]
    rfl
  rw [run]
  exact ⟨rfl, rfl, rfl, rfl, rfl, rfl, rfl, rfl, rfl⟩

/-! ## A full run from reset -/

theorem maskTail_init {N K : Nat} (hKN : K ≤ N) :
    maskTail N K (initMask N K) = maskList N K := by
  have h2 : (2:Nat) ^ K ≤ 2 ^ N := Nat.pow_le_pow_right (by omega) hKN
  have h1 : (1:Nat) ≤ 2 ^ K := Nat.one_le_two_pow
  have hinit : initMask N K = 2 ^ K - 1 := Nat.mod_eq_of_lt (by omega)
  rw [maskTail, maskList, hinit]
  apply List.filter_congr
  intro x hx
  by_cases hpc : popCount x = K
  · have := ge_initMask hpc
    simp [hpc, this]
  · simp [hpc]

theorem run_raw {N K CW data : Nat} {inp : Inp} (hstart : inp.start = true)
    (hK23 : K = 2 ∨ K = 3) (hKN : K ≤ N) :
    (iterC N K CW data inp
      (19 + Nat.choose N K * (N + 1 + 4 * remEv K 0 0 + 1)) reset).fsm =
        .finished ∧
    (iterC N K CW data inp
      (19 + Nat.choose N K * (N + 1 + 4 * remEv K 0 0 + 1)) reset).busy =
        false ∧
    (iterC N K CW data inp
      (19 + Nat.choose N K * (N + 1 + 4 * remEv K 0 0 + 1)) reset).done =
        true ∧
    (iterC N K CW data inp
      (19 + Nat.choose N K * (N + 1 + 4 * remEv K 0 0 + 1)) reset).mem =
        runMem N K CW data (List.replicate 16 0) (maskList N K) := by
  obtain ⟨a1, a2, a3, a4, a5, a6, a7, a8, a9⟩ := @startup N K CW data inp hstart
  have h2 : (2:Nat) ^ K ≤ 2 ^ N := Nat.pow_le_pow_right (by omega) hKN
  have h1 : (1:Nat) ≤ 2 ^ K := Nat.one_le_two_pow
  have hinit : initMask N K = 2 ^ K - 1 := Nat.mod_eq_of_lt (by omega)
  have hmlt : (iterC N K CW data inp 19 reset).mask < 2 ^ N := by
    rw [a6, hinit]; omega
  have hmpc : popCount (iterC N K CW data inp 19 reset).mask = K := by
    rw [a6, hinit]; exact popCount_two_pow_sub_one K
  rw [iterC_add,
      show Nat.choose N K = (maskTail N K (iterC N K CW data inp 19 reset).mask).length by
        rw [a6, maskTail_init hKN, maskList_length],
      show maskList N K = maskTail N K (iterC N K CW data inp 19 reset).mask by
        rw [a6, maskTail_init hKN]]
  obtain ⟨i1, i2, i3, i4⟩ :=
    loop_phase hK23 (2 ^ N) (iterC N K CW data inp 19 reset)
      (by omega) a1 a2 a3 a4 a5 hmlt hmpc
  rw [a7] at i4
  exact ⟨i1, i2, i3, i4⟩

/-! ## Histogram fold algebra: flattening, commutativity, overflow -/

theorem foldl_flatMap {α β γ : Type} (g : α → List β) (f : γ → β → γ) :
    ∀ (l : List α) (init : γ),
      (l.flatMap g).foldl f init =
        l.foldl (fun acc x => (g x).foldl f acc) init := by
  intro l
  induction l with
  | nil => intro init; rfl
  | cons x xs ih =>
    intro init
    rw [List.flatMap_cons, List.foldl_append, List.foldl_cons, ih]

theorem flatMap_congr {α β : Type} {l : List α} {f g : α → List β}
    (h : ∀ x ∈ l, f x = g x) : l.flatMap f = l.flatMap g := by
  induction l with
  | nil => rfl
  | cons x xs ih =>
    rw [List.flatMap_cons, List.flatMap_cons, h x (by simp),
        ih (fun y hy => h y (by simp [hy]))]

theorem bump_comm (h : List Nat) (i j : Nat) :
    bump (bump h i) j = bump (bump h j) i := by
  by_cases hij : i = j
  · subst hij; rfl
  · have e1 : memGet (h.set i (memGet h i + 1)) j = memGet h j := by
      simp [memGet, List.getD_eq_getElem?_getD, List.getElem?_set_ne hij]
    have e2 : memGet (h.set j (memGet h j + 1)) i = memGet h i := by
      simp [memGet, List.getD_eq_getElem?_getD, List.getElem?_set_ne (Ne.symm hij)]
    rw [bump, bump, bump, bump, e1, e2, List.set_comm _ _ _ hij]

theorem memGet_le_sum (h : List Nat) (i : Nat) : memGet h i ≤ h.sum := by
  rw [memGet, List.getD_eq_getElem?_getD]
  cases hx : h[i]? with
  | none => simp
  | some v =>
    have hv : v ∈ h := List.getElem?_mem hx
    simpa using List.single_le_sum (fun x _ => Nat.zero_le x) v hv

theorem bump_sum_le (h : List Nat) (i : Nat) : (bump h i).sum ≤ h.sum + 1 := by
  rw [bump, List.sum_set]
  by_cases hi : i < h.length
  · have hd : h.drop i = h[i] :: h.drop (i + 1) := List.drop_eq_getElem_cons hi
    have hs : (h.take i).sum + (h.drop i).sum = h.sum := List.sum_take_add_sum_drop h i
    have hg : memGet h i = h[i] := by
      rw [memGet, List.getD_eq_getElem?_getD, List.getElem?_eq_getElem hi]
      rfl
    rw [if_pos hi, hg]
    rw [hd] at hs
    simp only [List.sum_cons] at hs
    omega
  · rw [if_neg hi]
    have hs : (h.take i).sum + (h.drop i).sum = h.sum := List.sum_take_add_sum_drop h i
    have hd : h.drop (i + 1) = [] := List.drop_of_length_le (by omega)
    have hd2 : h.drop i = [] := List.drop_of_length_le (by omega)
    rw [hd]
    rw [hd2] at hs
    simp at hs ⊢
    omega

theorem foldl_bump_sum_le :
    ∀ (bs : List Nat) (h : List Nat), (bs.foldl bump h).sum ≤ h.sum + bs.length := by
  intro bs
  induction bs with
  | nil => intro h; simp
  | cons b bs ih =>
    intro h
    rw [List.foldl_cons]
    have h1 := ih (bump h b)
    have h2 := bump_sum_le h b
    simp only [List.length_cons]
    omega

theorem foldl_bumpMod_eq_bump (CW : Nat) :
    ∀ (bs : List Nat) (h : List Nat), h.sum + bs.length < 2 ^ CW →
      bs.foldl (bumpMod CW) h = bs.foldl bump h := by
  intro bs
  induction bs with
  | nil => intro h _; rfl
  | cons b bs ih =>
    intro h hb
    simp only [List.length_cons] at hb
    rw [List.foldl_cons, List.foldl_cons]
    have h1 : bumpMod CW h b = bump h b := by
      rw [bumpMod, bump]
      congr 1
      apply Nat.mod_eq_of_lt
      have := memGet_le_sum h b
      omega
    rw [h1]
    apply ih
    have := bump_sum_le h b
    omega

theorem length_flatMap_const {α β : Type} (g : α → List β) (E : Nat)
    (hg : ∀ x, (g x).length = E) :
    ∀ l : List α, (l.flatMap g).length = l.length * E := by
  intro l
  induction l with
  | nil => simp
  | cons x xs ih =>
    rw [List.flatMap_cons, List.length_append, hg x, ih, List.length_cons,
        Nat.succ_mul]
    omega

/-! ## The hardware operator sweep of one subset against the Python loops -/

theorem OPS_map_eq : ∀ a < 16, ∀ b < 16,
    OPS.map (fun op => op a b) = (List.range 10).map (fun o => apply_op o a b) := by
  decide

theorem apply_op_lt16 : ∀ o < 10, ∀ a < 16, ∀ b < 16, apply_op o a b < 16 := by
  decide

theorem finalRes_three (o1 o2 a b c : Nat) :
    finalRes 3 o1 o2 a b c = apply_op o2 (apply_op o1 a b) c := by
  simp [finalRes]

theorem subsetBins_two (a b c : Nat) (ha : a < 16) (hb : b < 16) :
    subsetBins 2 a b c = OPS.map (fun op => op a b) := by
  rw [subsetBins, opSeq, if_pos rfl, List.map_map, OPS_map_eq a ha b hb]
  apply List.map_congr_left
  intro o _
  simp [Function.comp, finalRes_two]

theorem subsetBins_three (a b c : Nat) (ha : a < 16) (hb : b < 16) (hc : c < 16) :
    subsetBins 3 a b c =
      OPS.flatMap (fun op1 => OPS.map (fun op2 => op2 (op1 a b) c)) := by
  have hR : OPS.flatMap (fun op1 => OPS.map (fun op2 => op2 (op1 a b) c)) =
      (List.range 10).flatMap
        (fun o1 => (List.range 10).map (fun o2 => apply_op o2 (apply_op o1 a b) c)) := by
    have h1 : OPS.flatMap (fun op1 => OPS.map (fun op2 => op2 (op1 a b) c)) =
        (OPS.map (fun op1 => op1 a b)).flatMap
          (fun v => OPS.map (fun op2 => op2 v c)) := by
      rw [List.flatMap_map]
    rw [h1, OPS_map_eq a ha b hb, List.flatMap_map]
    apply flatMap_congr
    intro o1 ho1
    rw [List.mem_range] at ho1
    exact OPS_map_eq _ (apply_op_lt16 o1 ho1 a ha b hb) c hc
  rw [subsetBins, opSeq, if_neg (by omega), List.map_flatMap, hR]
  apply flatMap_congr
  intro o1 _
  rw [List.map_map]
  apply List.map_congr_left
  intro o2 _
  simp [Function.comp, finalRes_three]

theorem nibble_lt (data i : Nat) : nibble data i < 16 := by
  rw [nibble]
  omega

theorem memGet_nibblesOf {N data i : Nat} (hi : i < N) :
    memGet (nibblesOf N data) i = nibble data i := by
  rw [nibblesOf, memGet, List.getD_eq_getElem?_getD, List.getElem?_map,
      List.getElem?_range hi]
  rfl

theorem filter_testBit_maskOf {N : Nat} {c : List Nat}
    (hs : c.Sublist (List.range N)) :
    (List.range N).filter (fun i => (maskOf c).testBit i) = c := by
  rw [List.filter_congr (fun i _ => testBit_maskOf c i)]
  exact sorted_filter_mem_eq c (combos_sorted hs) (combos_bounded hs)

theorem selVals_maskOf {N data : Nat} {c : List Nat}
    (hs : c.Sublist (List.range N)) :
    selVals N data (maskOf c) = c.map (nibble data) := by
  rw [selVals, filter_testBit_maskOf hs]

/-! ## The run memory equals the Python reference histogram -/

theorem nibblesOf_length (N data : Nat) : (nibblesOf N data).length = N := by
  simp [nibblesOf]

theorem runMem_eq_refHist {N K CW data : Nat} (hK23 : K = 2 ∨ K = 3)
    (hCW : Nat.choose N K * remEv K 0 0 < 2 ^ CW) :
    runMem N K CW data (List.replicate 16 0) (maskList N K) = refHist N K data := by
  haveI : RightCommutative bump := ⟨fun b a1 a2 => bump_comm b a1 a2⟩
  rcases hK23 with rfl | rfl
  · have hflat : runMem N 2 CW data (List.replicate 16 0) (maskList N 2) =
        ((maskList N 2).flatMap
          (fun m => subsetBins 2 (selA N data m) (selB N data m) (selC N data m))).foldl
          (bumpMod CW) (List.replicate 16 0) := by
      rw [runMem, foldl_flatMap]
      rfl
    have hbinlen : ∀ m : Nat,
        (subsetBins 2 (selA N data m) (selB N data m) (selC N data m)).length =
          remEv 2 0 0 := by
      intro m
      rw [subsetBins, List.length_map]
      decide
    have hlen := length_flatMap_const
      (fun m => subsetBins 2 (selA N data m) (selB N data m) (selC N data m))
      (remEv 2 0 0) hbinlen (maskList N 2)
    have hbound : (List.replicate 16 (0:Nat)).sum +
        ((maskList N 2).flatMap
          (fun m => subsetBins 2 (selA N data m) (selB N data m) (selC N data m))).length
          < 2 ^ CW := by
      rw [hlen, maskList_length]
      simpa using hCW
    rw [hflat, foldl_bumpMod_eq_bump CW _ _ hbound]
    have hperm := List.Perm.flatMap_right
      (fun m => subsetBins 2 (selA N data m) (selB N data m) (selC N data m))
      (maskList_perm N 2)
    rw [hperm.foldl_eq (List.replicate 16 0), List.flatMap_map]
    rw [refHist, if_pos rfl, python_pol2_hist, nibblesOf_length]
    have href : (combos 2 (List.range N)).foldl
        (fun h c =>
          let a := memGet (nibblesOf N data) (c.getD 0 0)
          let b := memGet (nibblesOf N data) (c.getD 1 0)
          OPS.foldl (fun h op => bump h (op a b)) h)
        (List.replicate 16 0) =
        ((combos 2 (List.range N)).flatMap
          (fun c => OPS.map (fun op =>
            op (memGet (nibblesOf N data) (c.getD 0 0))
               (memGet (nibblesOf N data) (c.getD 1 0))))).foldl
          bump (List.replicate 16 0) := by
      rw [foldl_flatMap]
      simp only [List.foldl_map]
    rw [href]
    congr 1
    apply flatMap_congr
    intro c hc
    obtain ⟨hs, hlen2⟩ := (combos_mem 2 (List.range N) c).mp hc
    obtain ⟨i, j, rfl⟩ := List.length_eq_two.mp hlen2
    have hsv : selVals N data (maskOf [i, j]) = [nibble data i, nibble data j] := by
      rw [selVals_maskOf hs]
      rfl
    have hA : selA N data (maskOf [i, j]) = nibble data i := by rw [selA, hsv]; rfl
    have hB : selB N data (maskOf [i, j]) = nibble data j := by rw [selB, hsv]; rfl
    have hiN : i < N := combos_bounded hs i (by simp)
    have hjN : j < N := combos_bounded hs j (by simp)
    rw [hA, hB, subsetBins_two _ _ _ (nibble_lt data i) (nibble_lt data j),
        show ([i, j].getD 0 0) = i from rfl, show ([i, j].getD 1 0) = j from rfl,
        memGet_nibblesOf hiN, memGet_nibblesOf hjN]
  · have hflat : runMem N 3 CW data (List.replicate 16 0) (maskList N 3) =
        ((maskList N 3).flatMap
          (fun m => subsetBins 3 (selA N data m) (selB N data m) (selC N data m))).foldl
          (bumpMod CW) (List.replicate 16 0) := by
      rw [runMem, foldl_flatMap]
      rfl
    have hbinlen : ∀ m : Nat,
        (subsetBins 3 (selA N data m) (selB N data m) (selC N data m)).length =
          remEv 3 0 0 := by
      intro m
      rw [subsetBins, List.length_map]
      decide
    have hlen := length_flatMap_const
      (fun m => subsetBins 3 (selA N data m) (selB N data m) (selC N data m))
      (remEv 3 0 0) hbinlen (maskList N 3)
    have hbound : (List.replicate 16 (0:Nat)).sum +
        ((maskList N 3).flatMap
          (fun m => subsetBins 3 (selA N data m) (selB N data m) (selC N data m))).length
          < 2 ^ CW := by
      rw [hlen, maskList_length]
      simpa using hCW
    rw [hflat, foldl_bumpMod_eq_bump CW _ _ hbound]
    have hperm := List.Perm.flatMap_right
      (fun m => subsetBins 3 (selA N data m) (selB N data m) (selC N data m))
      (maskList_perm N 3)
    rw [hperm.foldl_eq (List.replicate 16 0), List.flatMap_map]
    rw [refHist, if_neg (by omega), python_pol3_hist, nibblesOf_length]
    have href : (combos 3 (List.range N)).foldl
        (fun h c =>
          let a := memGet (nibblesOf N data) (c.getD 0 0)
          let b := memGet (nibblesOf N data) (c.getD 1 0)
          let c3 := memGet (nibblesOf N data) (c.getD 2 0)
          OPS.foldl (fun h op1 =>
            let first := op1 a b
            OPS.foldl (fun h op2 => bump h (op2 first c3)) h) h)
        (List.replicate 16 0) =
        ((combos 3 (List.range N)).flatMap
          (fun c => OPS.flatMap (fun op1 => OPS.map (fun op2 =>
            op2 (op1 (memGet (nibblesOf N data) (c.getD 0 0))
                     (memGet (nibblesOf N data) (c.getD 1 0)))
                (memGet (nibblesOf N data) (c.getD 2 0)))))).foldl
          bump (List.replicate 16 0) := by
      rw [foldl_flatMap]
      simp only [foldl_flatMap, List.foldl_map]
    rw [href]
    congr 1
    apply flatMap_congr
    intro c hc
    obtain ⟨hs, hlen2⟩ := (combos_mem 3 (List.range N) c).mp hc
    obtain ⟨i, j, k, rfl⟩ := List.length_eq_three.mp hlen2
    have hsv : selVals N data (maskOf [i, j, k]) =
        [nibble data i, nibble data j, nibble data k] := by
      rw [selVals_maskOf hs]
      rfl
    have hA : selA N data (maskOf [i, j, k]) = nibble data i := by rw [selA, hsv]; rfl
    have hB : selB N data (maskOf [i, j, k]) = nibble data j := by rw [selB, hsv]; rfl
    have hC : selC N data (maskOf [i, j, k]) = nibble data k := by rw [selC, hsv]; rfl
    have hiN : i < N := combos_bounded hs i (by simp)
    have hjN : j < N := combos_bounded hs j (by simp)
    have hkN : k < N := combos_bounded hs k (by simp)
    rw [hA, hB, hC,
        subsetBins_three _ _ _ (nibble_lt data i) (nibble_lt data j) (nibble_lt data k),
        show ([i, j, k].getD 0 0) = i from rfl, show ([i, j, k].getD 1 0) = j from rfl,
        show ([i, j, k].getD 2 0) = k from rfl,
        memGet_nibblesOf hiN, memGet_nibblesOf hjN, memGet_nibblesOf hkN]

/-! ## Claim C1: full-run refinement against the Python reference -/

/-- Claim C1: for every packed nibble input and K in {2,3} (with K ≤ N, and a
    count width large enough that no counter wraps), the design started from
    reset reaches DONE after the deterministic cycle count
    19 + C(N,K)·(N + 2 + 4·E) (E = 10 events for K = 2, 100 for K = 3), and
    its 16 histogram counters then equal, bin for bin, the brute-force
    Python reference histogram. -/
theorem C1_refinement {N K CW data : Nat} {inp : Inp}
    (hstart : inp.start = true) (hK23 : K = 2 ∨ K = 3) (hKN : K ≤ N)
    (hCW : Nat.choose N K * remEv K 0 0 < 2 ^ CW) :
    (iterC N K CW data inp
      (19 + Nat.choose N K * (N + 1 + 4 * remEv K 0 0 + 1)) reset).done = true ∧
    (iterC N K CW data inp
      (19 + Nat.choose N K * (N + 1 + 4 * remEv K 0 0 + 1)) reset).mem =
      refHist N K data := by
  obtain ⟨r1, r2, r3, r4⟩ := run_raw hstart hK23 hKN
  exact ⟨r3, r4.trans (runMem_eq_refHist hK23 hCW)⟩

/-- Witness for C1 at N = 2, K = 2, CW = 32, data_in = 0xFF. -/
theorem C1_refinement_witness :
    (⟨true, 0⟩ : Inp).start = true ∧ (2 ≤ 2 ∧ Nat.choose 2 2 * remEv 2 0 0 < 2 ^ 32) ∧
    ((iterC 2 2 32 255 ⟨true, 0⟩
      (19 + Nat.choose 2 2 * (2 + 1 + 4 * remEv 2 0 0 + 1)) reset).done = true ∧
     (iterC 2 2 32 255 ⟨true, 0⟩
      (19 + Nat.choose 2 2 * (2 + 1 + 4 * remEv 2 0 0 + 1)) reset).mem =
      refHist 2 2 255) :=
  ⟨rfl, ⟨by decide, by decide⟩,
    @C1_refinement 2 2 32 255 ⟨true, 0⟩ rfl (Or.inl rfl) (by decide) (by decide)⟩

/-! ## Claim C8: conservation of events in the histogram sum -/

theorem apply_op_lt (op a b : Nat) : apply_op op a b < 16 := by
  have hma : a % 16 < 16 := by omega
  have hmb : b % 16 < 16 := by omega
  have h15 : (15 : Nat) < 16 := by omega
  have hor : ∀ x y : Nat, x < 16 → y < 16 → x ||| y < 16 := fun x y hx hy =>
    Nat.or_lt_two_pow (n := 4) hx hy
  have hxor : ∀ x y : Nat, x < 16 → y < 16 → x ^^^ y < 16 := fun x y hx hy =>
    Nat.xor_lt_two_pow (n := 4) hx hy
  simp only [apply_op]
  split
  · exact lt_of_le_of_lt Nat.and_le_right hmb
  · exact hor _ _ hma hmb
  · exact hor _ _ (hxor _ _ hma h15) hmb
  · exact hor _ _ (hxor _ _ hmb h15) hma
  · exact hxor _ _ hma hmb
  · exact hxor _ _ (hxor _ _ hma hmb) h15
  · exact hxor _ _ (lt_of_le_of_lt Nat.and_le_right hmb) h15
  · exact hxor _ _ (hor _ _ hma hmb) h15
  · exact lt_of_le_of_lt Nat.and_le_right (hxor _ _ hmb h15)
  · exact lt_of_le_of_lt Nat.and_le_right (hxor _ _ hma h15)
  · exact hxor _ _ hma hmb

theorem finalRes_lt (K o1 o2 a b c : Nat) : finalRes K o1 o2 a b c < 16 := by
  simp only [finalRes]
  split
  · exact apply_op_lt o1 a b
  · exact apply_op_lt o2 _ c

theorem bump_sum_eq {h : List Nat} {i : Nat} (hi : i < h.length) :
    (bump h i).sum = h.sum + 1 := by
  rw [bump, List.sum_set]
  have hd : h.drop i = h[i] :: h.drop (i + 1) := List.drop_eq_getElem_cons hi
  have hs : (h.take i).sum + (h.drop i).sum = h.sum := List.sum_take_add_sum_drop h i
  have hg : memGet h i = h[i] := by
    rw [memGet, List.getD_eq_getElem?_getD, List.getElem?_eq_getElem hi]
    rfl
  rw [if_pos hi, hg]
  rw [hd] at hs
  simp only [List.sum_cons] at hs
  omega

theorem bump_length (h : List Nat) (i : Nat) : (bump h i).length = h.length := by
  rw [bump, List.length_set]

theorem foldl_bump_sum_eq :
    ∀ (bs : List Nat) (h : List Nat), h.length = 16 → (∀ b ∈ bs, b < 16) →
      (bs.foldl bump h).sum = h.sum + bs.length := by
  intro bs
  induction bs with
  | nil => intro h _ _; simp
  | cons b bs ih =>
    intro h hlen hb
    rw [List.foldl_cons,
        ih (bump h b) (by rw [bump_length, hlen]) (fun x hx => hb x (by simp [hx])),
        bump_sum_eq (by rw [hlen]; exact hb b (by simp)), List.length_cons]
    omega

theorem runMem_flat (N K CW data : Nat) :
    runMem N K CW data (List.replicate 16 0) (maskList N K) =
      ((maskList N K).flatMap
        (fun m => subsetBins K (selA N data m) (selB N data m) (selC N data m))).foldl
        (bumpMod CW) (List.replicate 16 0) := by
  rw [runMem, foldl_flatMap]
  rfl

theorem subsetBins_length {K : Nat} (hK23 : K = 2 ∨ K = 3) (a b c : Nat) :
    (subsetBins K a b c).length = remEv K 0 0 := by
  rcases hK23 with rfl | rfl <;> (rw [subsetBins, List.length_map]; decide)

/-- Claim C8: after a completed run (from reset, K ≤ N, no counter wrap) the
    sum of the 16 histogram counters equals C(N,K)·10 for K = 2 and
    C(N,K)·100 for K = 3: every (subset, operator) event increments exactly
    one bin by exactly one. -/
theorem C8_conservation {N K CW data : Nat} {inp : Inp}
    (hstart : inp.start = true) (hK23 : K = 2 ∨ K = 3) (hKN : K ≤ N)
    (hCW : Nat.choose N K * remEv K 0 0 < 2 ^ CW) :
    (iterC N K CW data inp
      (19 + Nat.choose N K * (N + 1 + 4 * remEv K 0 0 + 1)) reset).done = true ∧
    (iterC N K CW data inp
      (19 + Nat.choose N K * (N + 1 + 4 * remEv K 0 0 + 1)) reset).mem.sum =
      Nat.choose N K * (if K = 2 then 10 else 100) := by
  obtain ⟨r1, r2, r3, r4⟩ := run_raw hstart hK23 hKN
  refine ⟨r3, ?_⟩
  rw [r4, runMem_flat]
  have hlen := length_flatMap_const
    (fun m => subsetBins K (selA N data m) (selB N data m) (selC N data m))
    (remEv K 0 0) (fun m => subsetBins_length hK23 _ _ _) (maskList N K)
  have hbound : (List.replicate 16 (0:Nat)).sum +
      ((maskList N K).flatMap
        (fun m => subsetBins K (selA N data m) (selB N data m) (selC N data m))).length
        < 2 ^ CW := by
    rw [hlen, maskList_length]
    simpa using hCW
  have hbins : ∀ x ∈ (maskList N K).flatMap
      (fun m => subsetBins K (selA N data m) (selB N data m) (selC N data m)),
      x < 16 := by
    intro x hx
    rw [List.mem_flatMap] at hx
    obtain ⟨m, -, hxm⟩ := hx
    rw [subsetBins, List.mem_map] at hxm
    obtain ⟨p, -, rfl⟩ := hxm
    exact finalRes_lt K p.1 p.2 _ _ _
  rw [foldl_bumpMod_eq_bump CW _ _ hbound,
      foldl_bump_sum_eq _ _ (by simp) hbins, hlen, maskList_length]
  have hE : remEv K 0 0 = if K = 2 then 10 else 100 := by
    rcases hK23 with rfl | rfl <;> decide
  rw [hE]
  simp

/-- Witness for C8 at N = 2, K = 2, CW = 32, data_in = 0xFF. -/
theorem C8_conservation_witness :
    (⟨true, 0⟩ : Inp).start = true ∧ (2 ≤ 2 ∧ Nat.choose 2 2 * remEv 2 0 0 < 2 ^ 32) ∧
    ((iterC 2 2 32 255 ⟨true, 0⟩
      (19 + Nat.choose 2 2 * (2 + 1 + 4 * remEv 2 0 0 + 1)) reset).done = true ∧
     (iterC 2 2 32 255 ⟨true, 0⟩
      (19 + Nat.choose 2 2 * (2 + 1 + 4 * remEv 2 0 0 + 1)) reset).mem.sum =
      Nat.choose 2 2 * (if 2 = 2 then 10 else 100)) :=
  ⟨rfl, ⟨by decide, by decide⟩,
    @C8_conservation 2 2 32 255 ⟨true, 0⟩ rfl (Or.inl rfl) (by decide) (by decide)⟩
